import Mathlib

/-!
A shallow embedding of `autoencoder.py`: a fully connected autoencoder
(`AE`) and its training driver (`train_autoencoder`), together with the
command line entry point.  Tensors are modelled as a shape plus flat
row-major rational data; the numeric library internals that the program
delegates to (random weight initialisation of `nn.Linear`, the Adam
update rule, the shuffling of `DataLoader`) are abstracted as explicit
function parameters, constrained only by the contracts the library
guarantees (shapes are preserved, a shuffle is a permutation).
-/

namespace AEnc

/-- A tensor: a shape together with flat (row-major) data.  Entries are
rationals, standing in for the exact values the numeric library computes. -/
structure Tensor where
  shape : List Nat
  data : List ℚ
deriving DecidableEq, Repr

/-- Number of stored elements of a tensor. -/
def Tensor.numel (t : Tensor) : Nat := t.data.length

/-- A tensor is wellformed when its flat data has exactly as many entries
as its shape demands. -/
def Tensor.wf (t : Tensor) : Prop := t.data.length = t.shape.prod

/-- `t.view(n, -1)`: reshape to two dimensions with first dimension `n` and
the second inferred.  The library raises an error (here: `none`) unless
`n` is positive, the tensor is nonempty and `n` divides the element count. -/
def Tensor.viewFlat (t : Tensor) (n : Nat) : Option Tensor :=
  if 0 < n ∧ 0 < t.data.length ∧ n ∣ t.data.length then
    some ⟨[n, t.data.length / n], t.data⟩
  else none

/-- `t.view(s)` with a fully explicit target shape: succeeds exactly when
the element counts agree. -/
def Tensor.viewShape (t : Tensor) (s : List Nat) : Option Tensor :=
  if s.prod = t.data.length then some ⟨s, t.data⟩ else none

/-- An affine layer (`nn.Linear(a, b, bias=True)`): a weight matrix given
by its rows and a bias vector. -/
structure Linear where
  weight : List (List ℚ)
  bias : List ℚ
deriving DecidableEq, Repr

/-- One element of an `nn.Sequential` stack: an affine layer or a ReLU. -/
inductive Layer where
  | linear (l : Linear)
  | relu
deriving DecidableEq, Repr

/-- Dot product of two vectors. -/
def dot (a b : List ℚ) : ℚ := (List.zipWith (fun x y => x * y) a b).sum

/-- Apply an affine layer to one input vector. -/
def Linear.apply (l : Linear) (v : List ℚ) : List ℚ :=
  List.zipWith (fun row b => dot row v + b) l.weight l.bias

/-- Apply one stack element to one input vector. -/
def Layer.apply : Layer → List ℚ → List ℚ
  | .linear l, v => l.apply v
  | .relu, v => v.map (fun q => max q 0)

/-- Output length of one stack element, given the input length. -/
def Layer.outLen : Layer → Nat → Nat
  | .linear l, _ => min l.weight.length l.bias.length
  | .relu, d => d

/-- Run an `nn.Sequential` stack on one input vector. -/
def runLayers (ls : List Layer) (v : List ℚ) : List ℚ :=
  ls.foldl (fun acc l => l.apply acc) v

/-- Output length of a stack, given the input length. -/
def stackOutLen (ls : List Layer) (d : Nat) : Nat :=
  ls.foldl (fun acc l => l.outLen acc) d

/-- The `n` rows, each of `d` entries, of a row-major data list. -/
def rowsOf (n d : Nat) (data : List ℚ) : List (List ℚ) :=
  (List.range n).map (fun i => (data.drop (i * d)).take d)

/-- Apply an `nn.Sequential` stack of `Linear`/`ReLU` layers to a
two-dimensional tensor, row by row (the library applies affine layers
along the last dimension).  Other ranks do not occur in this program. -/
def applyModel (ls : List Layer) (t : Tensor) : Tensor :=
  match t.shape with
  | [n, d] => ⟨[n, stackOutLen ls d], ((rowsOf n d t.data).map (runLayers ls)).flatten⟩
  | _ => t

/-- The autoencoder model: input dimension, latent dimension, encoder
stack and decoder stack (`self.enc_model`, `self.dec_model`). -/
structure AE where
  in_dim : Nat
  latent_dim : Nat
  enc_model : List Layer
  dec_model : List Layer
deriving DecidableEq, Repr

/-- The layer stack built in `AE.__init__` for one direction
(`layers_a` accumulated into a flat layer list):
`[[Linear(inD, lst[0]), ReLU]]`, then
`[[Linear(lst[i], lst[i+1]), ReLU]]` for `i` in `range(len(lst)-1)`,
then `[[Linear(lst[-1], outD)]]`.  When `lst` is empty the source raises
`IndexError` on `lst[0]`, modelled as `none`.  The parameter `mk`
abstracts the random weight initialisation of `nn.Linear(a, b)`. -/
def mkStack (mk : Nat → Nat → Linear) (inD : Nat) (lst : List Nat) (outD : Nat) :
    Option (List Layer) :=
  match lst with
  | [] => none
  | h :: t =>
    some (([[Layer.linear (mk inD h), Layer.relu]]
      ++ (List.range ((h :: t).length - 1)).map
          (fun idim => [Layer.linear (mk ((h :: t).getD idim 0) ((h :: t).getD (idim + 1) 0)),
            Layer.relu])
      ++ [[Layer.linear (mk ((h :: t).getLast (List.cons_ne_nil h t)) outD)]]).flatten)

/-- `AE.__init__(in_dim, latent_dim, enc_lst, dec_lst)`: build the encoder
stack from `in_dim` through `enc_lst` to `latent_dim` and the decoder
stack from `latent_dim` through `dec_lst` back to `in_dim`. -/
def AE.make (mk : Nat → Nat → Linear) (in_dim latent_dim : Nat)
    (enc_lst dec_lst : List Nat) : Option AE := do
  let e ← mkStack mk in_dim enc_lst latent_dim
  let d ← mkStack mk latent_dim dec_lst in_dim
  some ⟨in_dim, latent_dim, e, d⟩

/-- `AE.encode`: run the encoder stack. -/
def AE.encode (m : AE) (x : Tensor) : Tensor := applyModel m.enc_model x

/-- `AE.decode`: run the decoder stack. -/
def AE.decode (m : AE) (l : Tensor) : Tensor := applyModel m.dec_model l

/-- `AE.forward(x)`:
`flat_x = x.view(x.size(0), -1)`, `h = self.encode(flat_x)`,
`return self.decode(h).view(x.size())`.  `x.size(0)` fails on a rank-0
tensor, modelled by `head?`. -/
def AE.forward (m : AE) (x : Tensor) : Option Tensor := do
  let n ← x.shape.head?
  let flat_x ← x.viewFlat n
  let h := m.encode flat_x
  (m.decode h).viewShape x.shape

/-- The stack the specification describes: affine layers chaining the
input dimension through the hidden sizes to the output dimension, with a
ReLU after every affine layer except the last. -/
def specMLP (mk : Nat → Nat → Linear) : Nat → List Nat → Nat → List Layer
  | d, [], dOut => [Layer.linear (mk d dOut)]
  | d, h :: t, dOut => Layer.linear (mk d h) :: Layer.relu :: specMLP mk h t dOut

/-- Number of affine layers in a stack. -/
def countLinear (ls : List Layer) : Nat :=
  ls.countP (fun l => match l with | .linear _ => true | .relu => false)

/-- The weight initialiser respects the requested dimensions, as
`nn.Linear(a, b)` does: `b` rows of weights and `b` bias entries. -/
def wfMk (mk : Nat → Nat → Linear) : Prop :=
  ∀ a b, ((mk a b).weight.length = b) ∧ ((mk a b).bias.length = b)

lemma Layer.length_apply (l : Layer) (v : List ℚ) :
    (l.apply v).length = l.outLen v.length := by
  cases l with
  | linear l => simp [Layer.apply, Linear.apply, Layer.outLen]
  | relu => simp [Layer.apply, Layer.outLen]

lemma length_runLayers (ls : List Layer) (v : List ℚ) :
    (runLayers ls v).length = stackOutLen ls v.length := by
  induction ls generalizing v with
  | nil => simp [runLayers, stackOutLen]
  | cons l ls ih =>
    simpa [runLayers, stackOutLen, Layer.length_apply] using ih (l.apply v)

lemma stackOutLen_cons (l : Layer) (ls : List Layer) (d : Nat) :
    stackOutLen (l :: ls) d = stackOutLen ls (l.outLen d) := rfl

lemma length_rowsOf (n d : Nat) (data : List ℚ) :
    (rowsOf n d data).length = n := by simp [rowsOf]

lemma mem_rowsOf_length {n d : Nat} {data : List ℚ}
    (hlen : data.length = n * d) {r : List ℚ} (hr : r ∈ rowsOf n d data) :
    r.length = d := by
  rcases List.mem_map.1 hr with ⟨i, hi, rfl⟩
  rcases List.mem_range.1 hi with hi
  have hle : i * d + d ≤ n * d := by
    have : i + 1 ≤ n := hi
    calc i * d + d = (i + 1) * d := by ring
    _ ≤ n * d := Nat.mul_le_mul_right d this
  simp only [List.length_take, List.length_drop, hlen]
  omega

lemma sum_map_const {α : Type} (l : List α) (f : α → Nat) (c : Nat)
    (h : ∀ x ∈ l, f x = c) : (l.map f).sum = l.length * c := by
  induction l with
  | nil => simp
  | cons a l ih =>
    simp only [List.map_cons, List.sum_cons, List.length_cons]
    rw [h a (List.mem_cons_self a l), ih (fun x hx => h x (List.mem_cons_of_mem a hx))]
    ring

lemma applyModel_spec (ls : List Layer) (k d : Nat) (t : Tensor)
    (hs : t.shape = [k, d]) (hlen : t.data.length = k * d) :
    (applyModel ls t).shape = [k, stackOutLen ls d] ∧
      (applyModel ls t).data.length = k * stackOutLen ls d := by
  obtain ⟨s, dta⟩ := t
  dsimp only at hs hlen
  subst hs
  constructor
  · rfl
  · show ((rowsOf k d dta).map (runLayers ls)).flatten.length = _
    rw [List.length_flatten, List.map_map]
    rw [sum_map_const (rowsOf k d dta) _ (stackOutLen ls d) ?_, length_rowsOf]
    intro r hr
    simp only [Function.comp_apply, length_runLayers, mem_rowsOf_length hlen hr]

/-- Success and shape preservation of `AE.forward` for any model whose
stacks map rows of length `d` back to rows of length `d`. -/
lemma forward_ok (m : AE) (x : Tensor) (k d : Nat) (ds : List Nat)
    (hshape : x.shape = k :: ds) (hd : ds.prod = d)
    (hwf : x.data.length = k * d) (hk : 0 < k) (hd0 : 0 < d)
    (hout : stackOutLen m.dec_model (stackOutLen m.enc_model d) = d) :
    m.forward x = some ⟨x.shape, (m.decode (m.encode ⟨[k, d], x.data⟩)).data⟩ ∧
      (m.decode (m.encode ⟨[k, d], x.data⟩)).data.length = k * d := by
  have hview : x.viewFlat k = some ⟨[k, d], x.data⟩ := by
    unfold Tensor.viewFlat
    rw [if_pos ⟨hk, by rw [hwf]; exact Nat.mul_pos hk hd0, ⟨d, hwf⟩⟩]
    rw [hwf, Nat.mul_div_cancel_left d hk]
  have henc := applyModel_spec m.enc_model k d ⟨[k, d], x.data⟩ rfl hwf
  have hdec := applyModel_spec m.dec_model k (stackOutLen m.enc_model d)
      (m.encode ⟨[k, d], x.data⟩) henc.1 henc.2
  have hdecnum : (m.decode (m.encode ⟨[k, d], x.data⟩)).data.length = k * d := by
    show (applyModel m.dec_model _).data.length = _
    rw [hdec.2, hout]
  refine ⟨?_, hdecnum⟩
  show (x.shape.head?.bind fun n => (x.viewFlat n).bind fun flat_x =>
    (m.decode (m.encode flat_x)).viewShape x.shape) = _
  rw [hshape]
  show ((Tensor.viewFlat x k).bind fun flat_x =>
    (m.decode (m.encode flat_x)).viewShape (k :: ds)) = _
  rw [hview]
  show (m.decode (m.encode ⟨[k, d], x.data⟩)).viewShape (k :: ds) = _
  unfold Tensor.viewShape
  rw [if_pos (by rw [hdecnum, List.prod_cons, hd] : (k :: ds).prod = _)]

lemma mkStack_chain (mk : Nat → Nat → Linear) (outD : Nat) :
    ∀ (t : List Nat) (h : Nat),
    ((List.range ((h :: t).length - 1)).map
        (fun idim => [Layer.linear (mk ((h :: t).getD idim 0) ((h :: t).getD (idim + 1) 0)),
          Layer.relu])).flatten
      ++ [Layer.linear (mk ((h :: t).getLast (List.cons_ne_nil h t)) outD)]
      = specMLP mk h t outD := by
  intro t
  induction t with
  | nil => intro h; simp [specMLP]
  | cons a t ih =>
    intro h
    have hlen : (h :: a :: t).length - 1 = t.length + 1 := by simp
    rw [hlen, List.range_succ_eq_map, List.map_cons, List.map_map, List.flatten_cons]
    have hmap : (List.map
        ((fun idim => [Layer.linear (mk ((h :: a :: t).getD idim 0)
            ((h :: a :: t).getD (idim + 1) 0)), Layer.relu]) ∘ Nat.succ)
        (List.range t.length))
        = List.map (fun idim => [Layer.linear (mk ((a :: t).getD idim 0)
            ((a :: t).getD (idim + 1) 0)), Layer.relu]) (List.range t.length) := by
      apply List.map_congr_left
      intro i _
      simp [Function.comp, List.getD_cons_succ]
    have hlast : (h :: a :: t).getLast (List.cons_ne_nil h (a :: t))
        = (a :: t).getLast (List.cons_ne_nil a t) := List.getLast_cons _
    have ihA := ih a
    simp only [List.length_cons, Nat.add_sub_cancel] at ihA
    rw [hmap, hlast, List.append_assoc, ihA]
    rfl

lemma mkStack_eq_specMLP (mk : Nat → Nat → Linear) (inD outD : Nat)
    (h : Nat) (t : List Nat) :
    mkStack mk inD (h :: t) outD = some (specMLP mk inD (h :: t) outD) := by
  show some _ = some _
  congr 1
  show ([[Layer.linear (mk inD h), Layer.relu]]
      ++ (List.range ((h :: t).length - 1)).map
          (fun idim => [Layer.linear (mk ((h :: t).getD idim 0) ((h :: t).getD (idim + 1) 0)),
            Layer.relu])
      ++ [[Layer.linear (mk ((h :: t).getLast (List.cons_ne_nil h t)) outD)]]).flatten = _
  rw [List.append_assoc, List.flatten_append, List.flatten_append]
  simp only [List.flatten_cons, List.flatten_nil, List.append_nil]
  rw [mkStack_chain]
  rfl

lemma countLinear_specMLP (mk : Nat → Nat → Linear) :
    ∀ (l : List Nat) (d o : Nat), countLinear (specMLP mk d l o) = l.length + 1 := by
  intro l
  induction l with
  | nil => intro d o; simp [specMLP, countLinear]
  | cons a t ih =>
    intro d o
    simp only [specMLP, countLinear, List.countP_cons] at ih ⊢
    rw [ih a o]
    simp

lemma stackOutLen_specMLP (mk : Nat → Nat → Linear) (hmk : wfMk mk) :
    ∀ (l : List Nat) (d0 o x : Nat), stackOutLen (specMLP mk d0 l o) x = o := by
  intro l
  induction l with
  | nil =>
    intro d0 o x
    simp [specMLP, stackOutLen, Layer.outLen, (hmk d0 o).1, (hmk d0 o).2]
  | cons a t ih =>
    intro d0 o x
    show stackOutLen (Layer.linear (mk d0 a) :: Layer.relu :: specMLP mk a t o) x = o
    rw [stackOutLen_cons, stackOutLen_cons]
    exact ih a o _

/-- The constructor succeeding exhibits the stacks: `AE.make` returns
`some m` exactly when both hidden-size lists are nonempty, and then the
stacks are the spec-side alternating MLPs. -/
lemma make_eq (mk : Nat → Nat → Linear) (in_dim latent_dim : Nat)
    {enc_lst dec_lst : List Nat} (he : enc_lst ≠ []) (hd : dec_lst ≠ []) :
    AE.make mk in_dim latent_dim enc_lst dec_lst =
      some ⟨in_dim, latent_dim, specMLP mk in_dim enc_lst latent_dim,
        specMLP mk latent_dim dec_lst in_dim⟩ := by
  cases enc_lst with
  | nil => exact absurd rfl he
  | cons eh et =>
  cases dec_lst with
  | nil => exact absurd rfl hd
  | cons dh dt =>
  simp only [AE.make, mkStack_eq_specMLP, Option.bind_eq_bind, Option.some_bind]

/-- A concrete all-zero weight initialiser, used to instantiate theorems
on closed inputs. -/
def zeroMk (a b : Nat) : Linear :=
  ⟨List.replicate b (List.replicate a 0), List.replicate b 0⟩

lemma wfMk_zeroMk : wfMk zeroMk := by
  intro a b
  constructor <;> simp [zeroMk]

/-- C1: for every input tensor `x` whose first dimension is the number of
examples and whose remaining dimensions flatten to `in_dim`, `AE.forward x`
succeeds and returns a tensor whose shape equals the shape of `x`, for any
model built by the `AE` constructor with a dimension-respecting weight
initialiser. -/
theorem C1_forward_preserves_shape (mk : Nat → Nat → Linear) (hmk : wfMk mk)
    (in_dim latent_dim : Nat) (enc_lst dec_lst : List Nat) (m : AE)
    (hm : AE.make mk in_dim latent_dim enc_lst dec_lst = some m)
    (x : Tensor) (k : Nat) (ds : List Nat)
    (hshape : x.shape = k :: ds) (hflat : ds.prod = in_dim)
    (hx : x.wf) (hk : 0 < k) (hdim : 0 < in_dim) :
    ∃ y, m.forward x = some y ∧ y.shape = x.shape := by
  cases enc_lst with
  | nil => simp [AE.make, mkStack] at hm
  | cons eh et =>
  cases dec_lst with
  | nil =>
    rw [AE.make, mkStack_eq_specMLP] at hm
    simp [mkStack] at hm
  | cons dh dt =>
  rw [make_eq mk in_dim latent_dim (List.cons_ne_nil eh et) (List.cons_ne_nil dh dt)] at hm
  have hmEq := Option.some.inj hm
  have hout : stackOutLen m.dec_model (stackOutLen m.enc_model in_dim) = in_dim := by
    rw [← hmEq]
    show stackOutLen (specMLP mk latent_dim (dh :: dt) in_dim)
      (stackOutLen (specMLP mk in_dim (eh :: et) latent_dim) in_dim) = in_dim
    rw [stackOutLen_specMLP mk hmk]
  have hwf' : x.data.length = k * in_dim := by
    rw [Tensor.wf] at hx
    rw [hx, hshape, List.prod_cons, hflat]
  obtain ⟨hfwd, -⟩ :=
    forward_ok m x k in_dim ds hshape hflat hwf' hk hdim hout
  exact ⟨_, hfwd, rfl⟩

/-- Witness for C1 at a concrete model (`in_dim = 3`, latent 1, hidden
sizes `[5]`, zero weights) and a concrete input of shape `[2, 3]`. -/
theorem C1_forward_preserves_shape_witness :
    ∃ y, AE.forward ⟨3, 1, specMLP zeroMk 3 [5] 1, specMLP zeroMk 1 [5] 3⟩
        ⟨[2, 3], [1, 2, 3, 4, 5, 6]⟩ = some y ∧
      y.shape = (⟨[2, 3], [1, 2, 3, 4, 5, 6]⟩ : Tensor).shape :=
  C1_forward_preserves_shape zeroMk wfMk_zeroMk 3 1 [5] [5] _ rfl
    ⟨[2, 3], [1, 2, 3, 4, 5, 6]⟩ 2 [3] rfl rfl rfl (by decide) (by decide)

/-- C6: the `AE` constructor builds the encoder as `len(enc_lst) + 1`
affine layers chaining `in_dim` through `enc_lst` to `latent_dim` with a
ReLU after every affine layer except the last (`specMLP`), the decoder as
the mirror image chaining `latent_dim` through `dec_lst` back to `in_dim`
likewise with no final ReLU, and `AE.forward x` equals
`decode (encode (x flattened to (num_examples, -1)))` reshaped back to the
shape of `x`. -/
theorem C6_constructor_structure (mk : Nat → Nat → Linear) (hmk : wfMk mk)
    (in_dim latent_dim : Nat) (enc_lst dec_lst : List Nat)
    (he : enc_lst ≠ []) (hd : dec_lst ≠ []) :
    ∃ m, AE.make mk in_dim latent_dim enc_lst dec_lst = some m ∧
      m.enc_model = specMLP mk in_dim enc_lst latent_dim ∧
      m.dec_model = specMLP mk latent_dim dec_lst in_dim ∧
      countLinear m.enc_model = enc_lst.length + 1 ∧
      countLinear m.dec_model = dec_lst.length + 1 ∧
      (∀ x, stackOutLen m.enc_model x = latent_dim) ∧
      (∀ x, stackOutLen m.dec_model x = in_dim) ∧
      (∀ x n, x.shape.head? = some n →
        m.forward x = (x.viewFlat n).bind fun flat_x =>
          (m.decode (m.encode flat_x)).viewShape x.shape) := by
  refine ⟨_, make_eq mk in_dim latent_dim he hd, rfl, rfl, ?_, ?_, ?_, ?_, ?_⟩
  · exact countLinear_specMLP mk enc_lst in_dim latent_dim
  · exact countLinear_specMLP mk dec_lst latent_dim in_dim
  · intro x; exact stackOutLen_specMLP mk hmk enc_lst in_dim latent_dim x
  · intro x; exact stackOutLen_specMLP mk hmk dec_lst latent_dim in_dim x
  · intro x n hn
    show (x.shape.head?.bind fun n => (x.viewFlat n).bind fun flat_x =>
      (AE.decode _ (AE.encode _ flat_x)).viewShape x.shape) = _
    rw [hn]
    rfl

/-- Witness for C6 at the concrete constructor call of the entry point:
`AE(3, 1, [5], [5])` with zero weights. -/
theorem C6_constructor_structure_witness :
    ∃ m, AE.make zeroMk 3 1 [5] [5] = some m ∧
      m.enc_model = specMLP zeroMk 3 [5] 1 ∧
      m.dec_model = specMLP zeroMk 1 [5] 3 ∧
      countLinear m.enc_model = [5].length + 1 ∧
      countLinear m.dec_model = [5].length + 1 ∧
      (∀ x, stackOutLen m.enc_model x = 1) ∧
      (∀ x, stackOutLen m.dec_model x = 3) ∧
      (∀ x n, x.shape.head? = some n →
        m.forward x = (x.viewFlat n).bind fun flat_x =>
          (m.decode (m.encode flat_x)).viewShape x.shape) :=
  C6_constructor_structure zeroMk wfMk_zeroMk 3 1 [5] [5]
    (by decide) (by decide)

/-! ## The training driver `train_autoencoder` -/

/-- Errors the training driver can raise. -/
inductive Err where
  | nameError
  | shapeError
  | indexError
deriving DecidableEq, Repr

/-- Turn a library call that can fail into the exception it raises. -/
def orErr {α : Type} (o : Option α) (e : Err) : Except Err α :=
  match o with
  | some a => .ok a
  | none => .error e

/-- `nn.MSELoss()`: the mean over all entries of the squared difference.
All call sites pass tensors of equal shape. -/
def mseLoss (a b : Tensor) : ℚ :=
  (List.zipWith (fun x y => (x - y) ^ 2) a.data b.data).sum / (a.data.length : ℚ)

/-- `l[i] = v` on a loss buffer: an `IndexError` when `i` is out of
bounds. -/
def setIdx (l : List ℚ) (i : Nat) (v : ℚ) : Except Err (List ℚ) :=
  if i < l.length then .ok (l.set i v) else .error .indexError

/-- One progress line printed by the training loop: the epoch index, the
printed loss value, and whether it is the validation line. -/
structure OutEvent where
  epoch : Nat
  value : ℚ
  isVal : Bool
deriving DecidableEq, Repr

/-- The mutable state threaded through the batch loop: the model, the
optimiser state, the per-step loss buffer `mse_loss` and the step index
`i`. -/
structure TState (Ω : Type) where
  model : AE
  optState : Ω
  mse_loss : List ℚ
  i : Nat
deriving DecidableEq, Repr

/-- One iteration of the inner batch loop:
`reconstruction = autoencoder(im_batch)`;
`loss = loss_fn(reconstruction.view(batch_size, -1), target=im_batch.view(batch_size, -1))`;
`loss.backward(); optim.step()` (abstracted as `optStep`);
`mse_loss[i] = loss.detach(); i += 1`. -/
def batchStep {Ω : Type} (optStep : AE → Ω → Tensor → AE × Ω) (batch_size : Nat)
    (st : TState Ω) (im_batch : Tensor) : Except Err (TState Ω) := do
  let reconstruction ← orErr (st.model.forward im_batch) Err.shapeError
  let rv ← orErr (reconstruction.viewFlat batch_size) Err.shapeError
  let tv ← orErr (im_batch.viewFlat batch_size) Err.shapeError
  let loss := mseLoss rv tv
  let p := optStep st.model st.optState im_batch
  let buf ← setIdx st.mse_loss st.i loss
  .ok ⟨p.1, p.2, buf, st.i + 1⟩

/-- The whole-dataset loss of the no-grad block:
`floss = loss_fn(autoencoder(fim_batch).view(fim_batch.size(0), -1), target=fim_batch.view(fim_batch.size(0), -1))`. -/
def fullLoss (m : AE) (ds : Tensor) : Except Err ℚ := do
  let frec ← orErr (m.forward ds) Err.shapeError
  let rv ← orErr (frec.viewFlat (ds.shape.headD 0)) Err.shapeError
  let tv ← orErr (ds.viewFlat (ds.shape.headD 0)) Err.shapeError
  .ok (mseLoss rv tv)

/-- The `with torch.no_grad():` block run after each epoch: record the
whole-dataset training loss at index `epoch`, and the validation loss
likewise when `val_dataset` is given.  The model is in scope throughout;
the block contains no parameter update, so it hands the model back as it
received it. -/
def noGradEval (m : AE) (dataset : Tensor) (val_dataset : Option Tensor)
    (epoch : Nat) (full_mse_loss : List ℚ) (full_val_loss : Option (List ℚ)) :
    Except Err (AE × List ℚ × Option (List ℚ)) := do
  let floss ← fullLoss m dataset
  let fm ← setIdx full_mse_loss epoch floss
  match val_dataset with
  | some v => do
      let vloss ← fullLoss m v
      let fv ← setIdx (full_val_loss.getD []) epoch vloss
      .ok (m, fm, some fv)
  | none => .ok (m, fm, none)

/-- Fuel-driven worker for `chunksOf`: peels one `bs`-sized chunk per
step.  The fuel only bounds the recursion depth; with `0 < bs` and fuel
at least the list length it is never exhausted. -/
def chunksGo {α : Type} (bs : Nat) : Nat → List α → List (List α)
  | _, [] => []
  | 0, rest => [rest]
  | f + 1, x :: xs => (x :: xs).take bs :: chunksGo bs f ((x :: xs).drop bs)

/-- Split a list into consecutive chunks of size `bs` with a smaller
final chunk when `bs` does not divide the length, as the data loader
batches do with the default `drop_last=False`. -/
def chunksOf {α : Type} (bs : Nat) (l : List α) : List (List α) :=
  chunksGo bs l.length l

lemma chunksGo_fuel {α : Type} (bs : Nat) (hbs : 0 < bs) :
    ∀ (f1 f2 : Nat) (l : List α), l.length ≤ f1 → l.length ≤ f2 →
      chunksGo bs f1 l = chunksGo bs f2 l := by
  intro f1
  induction f1 with
  | zero =>
    intro f2 l h1 _
    rw [List.length_eq_zero.1 (Nat.le_zero.1 h1)]
    cases f2 <;> rfl
  | succ f ih =>
    intro f2 l h1 h2
    cases l with
    | nil => cases f2 <;> rfl
    | cons x xs =>
      cases f2 with
      | zero => exact absurd h2 (by simp)
      | succ f2 =>
        have h1' : xs.length ≤ f := by
          simpa using h1
        have h2' : xs.length ≤ f2 := by
          simpa using h2
        show _ :: chunksGo bs f ((x :: xs).drop bs) = _ :: chunksGo bs f2 ((x :: xs).drop bs)
        rw [ih f2 ((x :: xs).drop bs) (by simp; omega) (by simp; omega)]

lemma chunksOf_nil {α : Type} (bs : Nat) : chunksOf bs ([] : List α) = [] := rfl

lemma chunksOf_cons {α : Type} (bs : Nat) (hbs : 0 < bs) (x : α) (xs : List α) :
    chunksOf bs (x :: xs) = (x :: xs).take bs :: chunksOf bs ((x :: xs).drop bs) := by
  show _ :: chunksGo bs xs.length ((x :: xs).drop bs) = _ :: chunksOf bs ((x :: xs).drop bs)
  rw [chunksGo_fuel bs hbs xs.length ((x :: xs).drop bs).length ((x :: xs).drop bs)
    (by simp; omega) (Nat.le_refl _)]
  rfl

/-- The rows (first-dimension slices) of a tensor, each flattened. -/
def Tensor.rows (t : Tensor) : List (List ℚ) :=
  rowsOf (t.shape.headD 0) t.shape.tail.prod t.data

/-- Stack rows back into one batch tensor with trailing shape `ds`, as
the data loader collates samples. -/
def mkBatch (ds : List Nat) (rows : List (List ℚ)) : Tensor :=
  ⟨rows.length :: ds, rows.flatten⟩

/-- The batches the shuffling `DataLoader` yields in epoch `e`: the
dataset rows, reshuffled by the (abstract, seeded-generator-driven)
permutation for that epoch, grouped into `batch_size`-sized batches. -/
def loaderBatches (shuffle : Nat → List (List ℚ) → List (List ℚ))
    (batch_size : Nat) (dataset : Tensor) (e : Nat) : List Tensor :=
  (chunksOf batch_size (shuffle e dataset.rows)).map (mkBatch dataset.shape.tail)

/-- The per-epoch accumulator: loop state, the two whole-dataset loss
arrays, and the progress lines printed so far. -/
structure EpochAcc (Ω : Type) where
  st : TState Ω
  full_mse_loss : List ℚ
  full_val_loss : Option (List ℚ)
  log : List OutEvent
deriving DecidableEq, Repr

/-- The progress lines printed at one reporting epoch: the training-loss
line (`full_mse_loss[epoch]`), then the validation-loss line
(`full_val_loss[epoch]`) when a validation set is present. -/
def progressLines (val_dataset : Option Tensor) (epoch : Nat) (fm : List ℚ)
    (fv : Option (List ℚ)) : List OutEvent :=
  [⟨epoch, fm.getD epoch 0, false⟩]
    ++ (match val_dataset with
        | some _ => [⟨epoch, (fv.getD []).getD epoch 0, true⟩]
        | none => [])

/-- One epoch of the training loop: run the batch loop, run the no-grad
evaluation block, and print the progress lines when `epoch % 10 == 0`. -/
def epochStep {Ω : Type} (optStep : AE → Ω → Tensor → AE × Ω) (batch_size : Nat)
    (loader : Nat → List Tensor) (dataset : Tensor) (val_dataset : Option Tensor)
    (acc : EpochAcc Ω) (epoch : Nat) : Except Err (EpochAcc Ω) := do
  let st ← (loader epoch).foldlM (batchStep optStep batch_size) acc.st
  let (m, fm, fv) ←
    noGradEval st.model dataset val_dataset epoch acc.full_mse_loss acc.full_val_loss
  let log :=
    if epoch % 10 == 0 then acc.log ++ progressLines val_dataset epoch fm fv
    else acc.log
  .ok ⟨⟨m, st.optState, st.mse_loss, st.i⟩, fm, fv, log⟩

/-- What `train_autoencoder` hands back, together with the observable
effects the claims are about: the devices the model is moved to, in
order, and the printed progress lines. -/
structure TrainResult where
  tr_mse : List ℚ
  val_mse : Option (List ℚ)
  log : List OutEvent
  placements : List String
  step_mse : List ℚ
deriving DecidableEq, Repr

/-- `train_autoencoder(autoencoder, dataset, device, val_dataset=None,
epochs=20, batch_size=250, seed=0)`.  `DEVICE` is the module-level
global read on the first line (`autoencoder.to(DEVICE)`); it is `none`
when that global is not defined, in which case Python raises a
`NameError` before anything else runs.  `optStep` with initial state
`ω0` abstracts `loss.backward(); optim.step()` of the Adam optimiser;
`shuffle` abstracts the seeded reshuffling the loader applies each
epoch.  The `device` parameter is only used to place data tensors, which
does not change any computed value here. -/
def train_autoencoder {Ω : Type} (optStep : AE → Ω → Tensor → AE × Ω) (ω0 : Ω)
    (shuffle : Nat → List (List ℚ) → List (List ℚ)) (DEVICE : Option String)
    (autoencoder : AE) (dataset : Tensor) (device : String)
    (val_dataset : Option Tensor) (epochs : Nat) (batch_size : Nat) :
    Except Err TrainResult := do
  let dev0 ← orErr DEVICE Err.nameError
  let n := dataset.shape.headD 0
  let mse0 : List ℚ := List.replicate (epochs * n / batch_size) 0
  let fm0 : List ℚ := List.replicate epochs 0
  let fv0 : Option (List ℚ) :=
    match val_dataset with
    | some _ => some (List.replicate epochs 0)
    | none => none
  let acc ← (List.range epochs).foldlM
      (epochStep optStep batch_size (loaderBatches shuffle batch_size dataset)
        dataset val_dataset)
      ⟨⟨autoencoder, ω0, mse0, 0⟩, fm0, fv0, []⟩
  .ok ⟨acc.full_mse_loss, acc.full_val_loss, acc.log, [dev0, "cpu"], acc.st.mse_loss⟩

/-! ## Inversion helpers for `Except` runs -/

deriving instance DecidableEq for Except

lemma bind_ok {α β : Type} (a : α) (f : α → Except Err β) :
    (Except.ok a : Except Err α) >>= f = f a := rfl

lemma bind_error {α β : Type} (e : Err) (f : α → Except Err β) :
    (Except.error e : Except Err α) >>= f = Except.error e := rfl

lemma orErr_some {α : Type} (a : α) (e : Err) : orErr (some a) e = .ok a := rfl

lemma bind_ok_iff {α β : Type} (x : Except Err α) (f : α → Except Err β) (b : β) :
    (x >>= f) = .ok b ↔ ∃ a, x = .ok a ∧ f a = .ok b := by
  cases x with
  | ok a =>
    constructor
    · intro h; exact ⟨a, rfl, h⟩
    · rintro ⟨a2, ha, hf⟩
      cases ha
      exact hf
  | error e =>
    constructor
    · intro h; exact absurd h (by simp [Bind.bind, Except.bind])
    · rintro ⟨a2, ha, -⟩; cases ha

lemma setIdx_ok_iff (l : List ℚ) (i : Nat) (v : ℚ) (l' : List ℚ) :
    setIdx l i v = .ok l' ↔ i < l.length ∧ l' = l.set i v := by
  unfold setIdx
  by_cases hi : i < l.length
  · simp only [if_pos hi, Except.ok.injEq]
    exact ⟨fun h => ⟨hi, h.symm⟩, fun h => h.2.symm⟩
  · simp only [if_neg hi]
    exact ⟨(fun h => Except.noConfusion h), (fun h => absurd h.1 hi)⟩

lemma orErr_ok_iff {α : Type} (o : Option α) (e : Err) (a : α) :
    orErr o e = .ok a ↔ o = some a := by
  cases o with
  | some b => simp [orErr]
  | none =>
    simp only [orErr]
    exact ⟨(fun h => Except.noConfusion h), (fun h => Option.noConfusion h)⟩

/-- A tiny concrete model used to instantiate the claim theorems. -/
def tinyAE : AE := ⟨1, 1, specMLP zeroMk 1 [1] 1, specMLP zeroMk 1 [1] 1⟩

/-- A tiny concrete one-example dataset. -/
def tinyDS : Tensor := ⟨[1, 1], [1]⟩

/-- C2: the whole-dataset loss computations of the `torch.no_grad()`
block at the end of each epoch leave every parameter of the autoencoder
unchanged: the model coming out of the block equals the model going in,
for every epoch, dataset, validation set and loss-array contents. -/
theorem C2_noGrad_preserves_params (m : AE) (dataset : Tensor)
    (val_dataset : Option Tensor) (epoch : Nat) (fm : List ℚ)
    (fv : Option (List ℚ)) (m' : AE) (fm' : List ℚ) (fv' : Option (List ℚ))
    (h : noGradEval m dataset val_dataset epoch fm fv = .ok (m', fm', fv')) :
    m' = m := by
  unfold noGradEval at h
  obtain ⟨floss, -, h⟩ := (bind_ok_iff _ _ _).1 h
  obtain ⟨fm2, -, h⟩ := (bind_ok_iff _ _ _).1 h
  cases val_dataset with
  | none =>
    have := Except.ok.inj h
    exact (Prod.mk.injEq _ _ _ _ ▸ this).1.symm
  | some v =>
    obtain ⟨vloss, -, h⟩ := (bind_ok_iff _ _ _).1 h
    obtain ⟨fv2, -, h⟩ := (bind_ok_iff _ _ _).1 h
    have := Except.ok.inj h
    exact (Prod.mk.injEq _ _ _ _ ▸ this).1.symm

/-- Witness for C2: a concrete run of the no-grad block on the tiny
model and dataset, parameters unchanged. -/
theorem C2_noGrad_preserves_params_witness :
    noGradEval tinyAE tinyDS none 0 [0] none = .ok (tinyAE, [1], none) ∧
      tinyAE = tinyAE :=
  ⟨by with_unfolding_all decide, C2_noGrad_preserves_params tinyAE tinyDS none 0 [0] none
    tinyAE [1] none (by with_unfolding_all decide)⟩

/-- The initial loop accumulator of a `train_autoencoder` run: zeroed
loss buffers, step index 0, no lines printed. -/
def initAcc {Ω : Type} (autoencoder : AE) (ω0 : Ω) (epochs batch_size : Nat)
    (dataset : Tensor) (val_dataset : Option Tensor) : EpochAcc Ω :=
  ⟨⟨autoencoder, ω0,
    List.replicate (epochs * (dataset.shape.headD 0) / batch_size) 0, 0⟩,
    List.replicate epochs 0,
    (match val_dataset with
      | some _ => some (List.replicate epochs 0)
      | none => none), []⟩

/-- Unfolding of a `train_autoencoder` run when the global `DEVICE` is
defined: the epoch fold from the initial buffers, then the result record
(with its two model placements `DEVICE` and cpu). -/
lemma train_unfold {Ω : Type} (optStep : AE → Ω → Tensor → AE × Ω) (ω0 : Ω)
    (shuffle : Nat → List (List ℚ) → List (List ℚ)) (dev : String)
    (autoencoder : AE) (dataset : Tensor) (device : String)
    (val_dataset : Option Tensor) (epochs batch_size : Nat) :
    train_autoencoder optStep ω0 shuffle (some dev) autoencoder dataset device
        val_dataset epochs batch_size
      = ((List.range epochs).foldlM
          (epochStep optStep batch_size (loaderBatches shuffle batch_size dataset)
            dataset val_dataset)
          (initAcc autoencoder ω0 epochs batch_size dataset val_dataset)) >>=
        fun acc => .ok ⟨acc.full_mse_loss, acc.full_val_loss, acc.log,
          [dev, "cpu"], acc.st.mse_loss⟩ := rfl

lemma train_noDEVICE {Ω : Type} (optStep : AE → Ω → Tensor → AE × Ω) (ω0 : Ω)
    (shuffle : Nat → List (List ℚ) → List (List ℚ))
    (autoencoder : AE) (dataset : Tensor) (device : String)
    (val_dataset : Option Tensor) (epochs batch_size : Nat) :
    train_autoencoder optStep ω0 shuffle none autoencoder dataset device
        val_dataset epochs batch_size = .error Err.nameError := rfl

/-- C5: `train_autoencoder` moves the model to the module-level global
`DEVICE`, not to its `device` parameter: the entire result is unchanged
under any swap of the `device` argument, on success the model placements
are exactly the value of the global followed by the final move to cpu,
and when the global `DEVICE` is not defined the call raises `NameError`
before any training step. -/
theorem C5_model_device_from_global {Ω : Type} (optStep : AE → Ω → Tensor → AE × Ω)
    (ω0 : Ω) (shuffle : Nat → List (List ℚ) → List (List ℚ))
    (DEVICE : Option String) (autoencoder : AE) (dataset : Tensor)
    (device1 device2 : String) (val_dataset : Option Tensor)
    (epochs batch_size : Nat) :
    (train_autoencoder optStep ω0 shuffle DEVICE autoencoder dataset device1
        val_dataset epochs batch_size
      = train_autoencoder optStep ω0 shuffle DEVICE autoencoder dataset device2
        val_dataset epochs batch_size)
    ∧ (∀ dev r, DEVICE = some dev →
        train_autoencoder optStep ω0 shuffle DEVICE autoencoder dataset device1
          val_dataset epochs batch_size = .ok r → r.placements = [dev, "cpu"])
    ∧ (DEVICE = none →
        train_autoencoder optStep ω0 shuffle DEVICE autoencoder dataset device1
          val_dataset epochs batch_size = .error Err.nameError) := by
  refine ⟨rfl, ?_, ?_⟩
  · intro dev r hdev hok
    subst hdev
    rw [train_unfold] at hok
    obtain ⟨acc, -, hacc⟩ := (bind_ok_iff _ _ _).1 hok
    rw [← Except.ok.inj hacc]
  · intro hdev
    subst hdev
    exact train_noDEVICE optStep ω0 shuffle autoencoder dataset device1
      val_dataset epochs batch_size

/-- Witness for C5: a concrete one-epoch run on the tiny model with the
global device defined, and the `NameError` case with it undefined. -/
theorem C5_model_device_from_global_witness :
    ((some "cuda" : Option String) = some "cuda") ∧
    (train_autoencoder (Ω := Unit) (fun m s _ => (m, s)) () (fun _ l => l)
        (some "cuda") tinyAE tinyDS "ignored" none 1 1
      = .ok ⟨[1], none, [⟨0, 1, false⟩], ["cuda", "cpu"], [1]⟩) ∧
    (TrainResult.mk [1] none [⟨0, 1, false⟩] ["cuda", "cpu"] [1]).placements
      = ["cuda", "cpu"] ∧
    (train_autoencoder (Ω := Unit) (fun m s _ => (m, s)) () (fun _ l => l)
        none tinyAE tinyDS "ignored" none 1 1 = .error Err.nameError) :=
  ⟨rfl, by with_unfolding_all decide,
    (C5_model_device_from_global (Ω := Unit) (fun m s _ => (m, s)) () (fun _ l => l)
      (some "cuda") tinyAE tinyDS "ignored" "other" none 1 1).2.1 "cuda"
      ⟨[1], none, [⟨0, 1, false⟩], ["cuda", "cpu"], [1]⟩ rfl (by with_unfolding_all decide),
    (C5_model_device_from_global (Ω := Unit) (fun m s _ => (m, s)) () (fun _ l => l)
      none tinyAE tinyDS "ignored" "other" none 1 1).2.2 rfl⟩

/-! ## Batch chunking facts -/

lemma chunksOf_flatten {α : Type} (bs : Nat) (hbs : 0 < bs) :
    ∀ (l : List α), (chunksOf bs l).flatten = l
  | [] => rfl
  | x :: xs => by
    rw [chunksOf_cons bs hbs, List.flatten_cons,
      chunksOf_flatten bs hbs ((x :: xs).drop bs)]
    exact List.take_append_drop _ _
termination_by l => l.length
decreasing_by simp; omega

lemma chunksOf_length_ceil {α : Type} (bs : Nat) (hbs : 0 < bs) :
    ∀ (l : List α), (chunksOf bs l).length =
      if l.length = 0 then 0 else (l.length - 1) / bs + 1
  | [] => rfl
  | x :: xs => by
    rw [chunksOf_cons bs hbs, List.length_cons,
      chunksOf_length_ceil bs hbs ((x :: xs).drop bs)]
    have hd : ((x :: xs).drop bs).length = xs.length + 1 - bs := by
      simp
    rw [hd]
    by_cases hle : xs.length + 1 ≤ bs
    · rw [if_pos (by omega), if_neg (by simp : ¬ (x :: xs).length = 0)]
      show 0 + 1 = (xs.length + 1 - 1) / bs + 1
      rw [Nat.div_eq_of_lt (by omega)]
    · rw [if_neg (by omega), if_neg (by simp : ¬ (x :: xs).length = 0)]
      show (xs.length + 1 - bs - 1) / bs + 1 + 1 = (xs.length + 1 - 1) / bs + 1
      have harith : xs.length + 1 - 1 = (xs.length + 1 - bs - 1) + bs := by omega
      rw [harith, Nat.add_div_right _ hbs]
termination_by l => l.length
decreasing_by simp; omega

lemma chunksOf_length_dvd {α : Type} (bs : Nat) (hbs : 0 < bs) :
    ∀ (l : List α), bs ∣ l.length → (chunksOf bs l).length = l.length / bs
  | [] => by
    intro _
    rw [chunksOf_nil]
    simp
  | x :: xs => by
    intro hdvd
    have hble : bs ≤ (x :: xs).length := Nat.le_of_dvd (by simp) hdvd
    have hdvd' : bs ∣ ((x :: xs).drop bs).length := by
      rw [List.length_drop]
      exact Nat.dvd_sub' hdvd (dvd_refl bs)
    rw [chunksOf_cons bs hbs, List.length_cons,
      chunksOf_length_dvd bs hbs ((x :: xs).drop bs) hdvd', List.length_drop]
    have h2 : (x :: xs).length - bs + bs = (x :: xs).length := by
      simp at hble ⊢
      omega
    calc ((x :: xs).length - bs) / bs + 1
        = ((x :: xs).length - bs + bs) / bs := (Nat.add_div_right _ hbs).symm
      _ = (x :: xs).length / bs := by rw [h2]
termination_by l => l.length
decreasing_by simp; omega

lemma chunksOf_mem_length {α : Type} (bs : Nat) (hbs : 0 < bs) :
    ∀ (l : List α), bs ∣ l.length → ∀ c ∈ chunksOf bs l, c.length = bs
  | [] => by
    intro _ c hc
    rw [chunksOf_nil] at hc
    cases hc
  | x :: xs => by
    intro hdvd c hc
    have hble : bs ≤ (x :: xs).length :=
      Nat.le_of_dvd (by simp) hdvd
    rw [chunksOf_cons bs hbs] at hc
    rcases List.mem_cons.1 hc with rfl | hc
    · rw [List.length_take]
      omega
    · refine chunksOf_mem_length bs hbs ((x :: xs).drop bs) ?_ c hc
      rw [List.length_drop]
      exact Nat.dvd_sub' hdvd (dvd_refl bs)
termination_by l => l.length
decreasing_by simp; omega

lemma chunksOf_mem_mem {α : Type} (bs : Nat) (hbs : 0 < bs) (l : List α)
    {c : List α} (hc : c ∈ chunksOf bs l) {r : α} (hr : r ∈ c) : r ∈ l := by
  rw [← chunksOf_flatten bs hbs l]
  exact List.mem_flatten.2 ⟨c, hc, hr⟩

/-! ## Invariants of the batch loop -/

lemma batchStep_ok_inv {Ω : Type} (optStep : AE → Ω → Tensor → AE × Ω)
    (bs : Nat) (st st' : TState Ω) (b : Tensor)
    (h : batchStep optStep bs st b = .ok st') :
    st'.i = st.i + 1 ∧ st'.mse_loss.length = st.mse_loss.length ∧
      st.i < st.mse_loss.length := by
  unfold batchStep at h
  obtain ⟨rec, -, h⟩ := (bind_ok_iff _ _ _).1 h
  obtain ⟨rv, -, h⟩ := (bind_ok_iff _ _ _).1 h
  obtain ⟨tv, -, h⟩ := (bind_ok_iff _ _ _).1 h
  obtain ⟨buf, hbuf, h⟩ := (bind_ok_iff _ _ _).1 h
  obtain ⟨hlt, hbufEq⟩ := (setIdx_ok_iff _ _ _ _).1 hbuf
  have hst := Except.ok.inj h
  refine ⟨?_, ?_, hlt⟩
  · rw [← hst]
  · rw [← hst]
    show buf.length = _
    rw [hbufEq, List.length_set]

lemma foldBatches_inv {Ω : Type} (optStep : AE → Ω → Tensor → AE × Ω) (bs : Nat) :
    ∀ (bl : List Tensor) (st st' : TState Ω),
      bl.foldlM (batchStep optStep bs) st = .ok st' →
      st'.i = st.i + bl.length ∧ st'.mse_loss.length = st.mse_loss.length ∧
        (bl = [] ∨ st'.i ≤ st.mse_loss.length) := by
  intro bl
  induction bl with
  | nil =>
    intro st st' h
    have := Except.ok.inj h
    subst this
    exact ⟨by simp, rfl, Or.inl rfl⟩
  | cons b bl ih =>
    intro st st' h
    rw [List.foldlM_cons] at h
    obtain ⟨st1, h1, h⟩ := (bind_ok_iff _ _ _).1 h
    obtain ⟨hi1, hlen1, hbound1⟩ := batchStep_ok_inv optStep bs st st1 b h1
    obtain ⟨hi, hlen, hrest⟩ := ih st1 st' h
    refine ⟨by simp; omega, by omega, Or.inr ?_⟩
    rcases hrest with rfl | hle
    · simp at hi
      omega
    · omega

lemma foldlM_range_inv {β : Type} (f : β → Nat → Except Err β) (P : Nat → β → Prop) :
    ∀ (N : Nat) (b0 bN : β), P 0 b0 →
      (∀ e b b', f b e = .ok b' → P e b → P (e + 1) b') →
      (List.range N).foldlM f b0 = .ok bN → P N bN := by
  intro N
  induction N with
  | zero =>
    intro b0 bN h0 _ h
    have := Except.ok.inj h
    rw [← this]
    exact h0
  | succ n ih =>
    intro b0 bN h0 hstep h
    rw [List.range_succ, List.foldlM_append] at h
    obtain ⟨bn, hbn, h⟩ := (bind_ok_iff _ _ _).1 h
    rw [List.foldlM_cons] at h
    obtain ⟨b', hb', h⟩ := (bind_ok_iff _ _ _).1 h
    have hbN := Except.ok.inj h
    rw [← hbN]
    exact hstep n bn b' hb' (ih b0 bn h0 hstep hbn)

lemma foldlM_range_exists {β : Type} (f : β → Nat → Except Err β) (P : Nat → β → Prop) :
    ∀ (N : Nat) (b0 : β), P 0 b0 →
      (∀ e b, e < N → P e b → ∃ b', f b e = .ok b' ∧ P (e + 1) b') →
      ∃ bN, (List.range N).foldlM f b0 = .ok bN ∧ P N bN := by
  intro N
  induction N with
  | zero =>
    intro b0 h0 _
    exact ⟨b0, rfl, h0⟩
  | succ n ih =>
    intro b0 h0 hstep
    obtain ⟨bn, hbn, hP⟩ := ih b0 h0 (fun e b he hP => hstep e b (by omega) hP)
    obtain ⟨b', hb', hP'⟩ := hstep n bn (by omega) hP
    refine ⟨b', ?_, hP'⟩
    rw [List.range_succ, List.foldlM_append, hbn, bind_ok, List.foldlM_cons, hb', bind_ok]
    rfl

lemma epochStep_i_inv {Ω : Type} (optStep : AE → Ω → Tensor → AE × Ω)
    (batch_size : Nat) (loader : Nat → List Tensor) (dataset : Tensor)
    (val_dataset : Option Tensor) (acc acc' : EpochAcc Ω) (e : Nat)
    (h : epochStep optStep batch_size loader dataset val_dataset acc e = .ok acc') :
    acc'.st.i = acc.st.i + (loader e).length ∧
      acc'.st.mse_loss.length = acc.st.mse_loss.length ∧
      (loader e = [] ∨ acc'.st.i ≤ acc.st.mse_loss.length) := by
  unfold epochStep at h
  obtain ⟨st1, h1, h⟩ := (bind_ok_iff _ _ _).1 h
  obtain ⟨hi1, hlen1, hbound1⟩ := foldBatches_inv optStep batch_size (loader e) acc.st st1 h1
  obtain ⟨trp, -, h⟩ := (bind_ok_iff _ _ _).1 h
  obtain ⟨m, fm, fv⟩ := trp
  have hacc := Except.ok.inj h
  rw [← hacc]
  exact ⟨hi1, hlen1, hbound1⟩

/-- C4: `train_autoencoder` terminates without an error only when the
number of training examples is an exact multiple of `batch_size`: on a
smaller final batch either the `view(batch_size, -1)` reshape or the
per-step loss buffer sized `epochs * len(dataset) // batch_size` fails. -/
theorem C4_success_needs_divisibility {Ω : Type} (optStep : AE → Ω → Tensor → AE × Ω)
    (ω0 : Ω) (shuffle : Nat → List (List ℚ) → List (List ℚ))
    (DEVICE : Option String) (autoencoder : AE) (dataset : Tensor)
    (device : String) (val_dataset : Option Tensor) (epochs batch_size : Nat)
    (r : TrainResult)
    (hshuffle : ∀ e l, (shuffle e l).length = l.length)
    (hepochs : 0 < epochs) (hbs : 0 < batch_size)
    (hok : train_autoencoder optStep ω0 shuffle DEVICE autoencoder dataset device
      val_dataset epochs batch_size = .ok r) :
    batch_size ∣ dataset.shape.headD 0 := by
  cases DEVICE with
  | none =>
    rw [train_noDEVICE] at hok
    cases hok
  | some dev =>
  rw [train_unfold] at hok
  obtain ⟨acc, hfold, -⟩ := (bind_ok_iff _ _ _).1 hok
  set n := dataset.shape.headD 0 with hn
  by_cases h0 : n = 0
  · rw [h0]
    exact dvd_zero _
  -- every epoch yields the same number of batches
  have hrowlen : dataset.rows.length = n := by
    rw [Tensor.rows, length_rowsOf]
  have hB : ∀ e, (loaderBatches shuffle batch_size dataset e).length
      = (n - 1) / batch_size + 1 := by
    intro e
    rw [loaderBatches, List.length_map, chunksOf_length_ceil batch_size hbs,
      hshuffle e dataset.rows, hrowlen, if_neg h0]
  set B := (n - 1) / batch_size + 1 with hBdef
  set L := epochs * n / batch_size with hLdef
  -- loop invariant: the step index advances by B per epoch and stays in the buffer
  have hinv := foldlM_range_inv
    (epochStep optStep batch_size (loaderBatches shuffle batch_size dataset)
      dataset val_dataset)
    (fun e a => a.st.i = e * B ∧ a.st.mse_loss.length = L ∧
      (e = 0 ∨ a.st.i ≤ L))
    epochs _ acc ⟨by simp [initAcc],
      by
        show (List.replicate (epochs * (dataset.shape.headD 0) / batch_size)
          (0 : ℚ)).length = L
        rw [List.length_replicate, ← hn, hLdef],
      Or.inl rfl⟩ ?_ hfold
  · -- from the invariant at `epochs`, divisibility follows arithmetically
    obtain ⟨hiN, hlenN, hboundN⟩ := hinv
    have hle : epochs * B ≤ L := by
      rcases hboundN with h | h
      · exact absurd hepochs (by omega)
      · rw [← hiN]
        omega
    -- write n = bs*q + rr with rr = n % bs and rule out 0 < rr
    rcases Nat.eq_zero_or_pos (n % batch_size) with hr | hr
    · exact Nat.dvd_of_mod_eq_zero hr
    exfalso
    have hmod := Nat.div_add_mod n batch_size
    set q := n / batch_size with hq
    set rr := n % batch_size with hrr
    set t := batch_size * q with ht
    have hrlt : rr < batch_size := Nat.mod_lt _ hbs
    have hBq : B = q + 1 := by
      rw [hBdef]
      have hsub : n - 1 = t + (rr - 1) := by omega
      rw [hsub, ht, Nat.mul_add_div hbs, Nat.div_eq_of_lt (by omega)]
    have hLq : L = epochs * q + epochs * rr / batch_size := by
      rw [hLdef]
      have h2 : epochs * n = batch_size * (epochs * q) + epochs * rr := by
        rw [← hmod, ht]
        ring
      rw [h2, Nat.mul_add_div hbs]
    have hlt2 : epochs * rr / batch_size < epochs :=
      (Nat.div_lt_iff_lt_mul hbs).2 (mul_lt_mul_of_pos_left hrlt hepochs)
    rw [hBq, hLq, Nat.mul_add, Nat.mul_one] at hle
    exact absurd (Nat.le_of_add_le_add_left hle) (Nat.not_le.2 hlt2)
  · -- the invariant is preserved by one epoch
    rintro e b b' hstep ⟨hi, hlen, -⟩
    obtain ⟨hi', hlen', hbound'⟩ := epochStep_i_inv _ _ _ _ _ _ _ _ hstep
    refine ⟨by rw [hi', hi, hB e]; ring, by omega, Or.inr ?_⟩
    rcases hbound' with hemp | hle2
    · exfalso
      have hBe := hB e
      rw [hemp, hBdef] at hBe
      simp at hBe
    · omega

/-- Witness for C4: a concrete successful one-epoch run with one example
and `batch_size = 1`; the conclusion `1 ∣ 1` is discharged through the
theorem. -/
theorem C4_success_needs_divisibility_witness :
    (train_autoencoder (Ω := Unit) (fun m s _ => (m, s)) () (fun _ l => l)
        (some "cpu") tinyAE tinyDS "x" none 1 1
      = .ok ⟨[1], none, [⟨0, 1, false⟩], ["cpu", "cpu"], [1]⟩) ∧
      (1 ∣ tinyDS.shape.headD 0) :=
  ⟨by with_unfolding_all decide,
    C4_success_needs_divisibility (Ω := Unit) (fun m s _ => (m, s)) () (fun _ l => l)
      (some "cpu") tinyAE tinyDS "x" none 1 1
      ⟨[1], none, [⟨0, 1, false⟩], ["cpu", "cpu"], [1]⟩
      (fun _ _ => rfl) (by omega) (by omega)
      (by with_unfolding_all decide)⟩

/-! ## Constructive success of a training run -/

/-- The composed stacks of a model map rows of width `d` back to width
`d`; `optim.step()` preserves this because it only changes weight values,
never shapes. -/
def fixDim (m : AE) (d : Nat) : Prop :=
  stackOutLen m.dec_model (stackOutLen m.enc_model d) = d

lemma viewFlat_of_len (t : Tensor) (k d : Nat) (hk : 0 < k) (hd : 0 < d)
    (hlen : t.data.length = k * d) : t.viewFlat k = some ⟨[k, d], t.data⟩ := by
  unfold Tensor.viewFlat
  rw [if_pos ⟨hk, by rw [hlen]; exact Nat.mul_pos hk hd, ⟨d, hlen⟩⟩]
  rw [hlen, Nat.mul_div_cancel_left d hk]

lemma mkBatch_data_length (ds2 : List Nat) (c : List (List ℚ)) (bs d : Nat)
    (hclen : c.length = bs) (hrows : ∀ r ∈ c, r.length = d) :
    (mkBatch ds2 c).data.length = bs * d := by
  show c.flatten.length = bs * d
  rw [List.length_flatten, sum_map_const c _ d hrows, hclen]

lemma batchStep_ok {Ω : Type} (optStep : AE → Ω → Tensor → AE × Ω)
    (bs d : Nat) (st : TState Ω) (c : List (List ℚ)) (ds2 : List Nat)
    (hclen : c.length = bs) (hrows : ∀ r ∈ c, r.length = d)
    (hds2 : ds2.prod = d) (hbs : 0 < bs) (hd0 : 0 < d)
    (hfix : fixDim st.model d) (hi : st.i < st.mse_loss.length) :
    ∃ L, batchStep optStep bs st (mkBatch ds2 c) =
      .ok ⟨(optStep st.model st.optState (mkBatch ds2 c)).1,
           (optStep st.model st.optState (mkBatch ds2 c)).2,
           st.mse_loss.set st.i L, st.i + 1⟩ := by
  have hshape : (mkBatch ds2 c).shape = bs :: ds2 := by
    show c.length :: ds2 = bs :: ds2
    rw [hclen]
  have hlen : (mkBatch ds2 c).data.length = bs * d :=
    mkBatch_data_length ds2 c bs d hclen hrows
  obtain ⟨hfwd, hdlen⟩ := forward_ok st.model (mkBatch ds2 c) bs d ds2
    hshape hds2 hlen hbs hd0 hfix
  have hrv : (⟨(mkBatch ds2 c).shape,
      (st.model.decode (st.model.encode ⟨[bs, d], (mkBatch ds2 c).data⟩)).data⟩ :
        Tensor).viewFlat bs = some ⟨[bs, d],
      (st.model.decode (st.model.encode ⟨[bs, d], (mkBatch ds2 c).data⟩)).data⟩ :=
    viewFlat_of_len _ bs d hbs hd0 hdlen
  have htv : (mkBatch ds2 c).viewFlat bs = some ⟨[bs, d], (mkBatch ds2 c).data⟩ :=
    viewFlat_of_len _ bs d hbs hd0 hlen
  have hset : setIdx st.mse_loss st.i
      (mseLoss ⟨[bs, d], (st.model.decode
        (st.model.encode ⟨[bs, d], (mkBatch ds2 c).data⟩)).data⟩
        ⟨[bs, d], (mkBatch ds2 c).data⟩)
      = .ok (st.mse_loss.set st.i
        (mseLoss ⟨[bs, d], (st.model.decode
          (st.model.encode ⟨[bs, d], (mkBatch ds2 c).data⟩)).data⟩
          ⟨[bs, d], (mkBatch ds2 c).data⟩)) := by
    unfold setIdx
    rw [if_pos hi]
  refine ⟨mseLoss ⟨[bs, d], (st.model.decode
      (st.model.encode ⟨[bs, d], (mkBatch ds2 c).data⟩)).data⟩
      ⟨[bs, d], (mkBatch ds2 c).data⟩, ?_⟩
  simp only [batchStep, hfwd, orErr_some, bind_ok, hrv, htv, hset]

lemma foldBatches_ok {Ω : Type} (optStep : AE → Ω → Tensor → AE × Ω)
    (bs d : Nat) (ds2 : List Nat) (hds2 : ds2.prod = d)
    (hbs : 0 < bs) (hd0 : 0 < d)
    (hstep : ∀ m ω b, fixDim m d → fixDim (optStep m ω b).1 d) :
    ∀ (cl : List (List (List ℚ))) (st : TState Ω),
      (∀ c ∈ cl, c.length = bs ∧ ∀ r ∈ c, r.length = d) →
      fixDim st.model d →
      st.i + cl.length ≤ st.mse_loss.length →
      ∃ st', (cl.map (mkBatch ds2)).foldlM (batchStep optStep bs) st = .ok st' ∧
        st'.i = st.i + cl.length ∧ st'.mse_loss.length = st.mse_loss.length ∧
        fixDim st'.model d := by
  intro cl
  induction cl with
  | nil =>
    intro st _ hfix _
    exact ⟨st, rfl, by simp, rfl, hfix⟩
  | cons c cl ih =>
    intro st hcl hfix hbound
    obtain ⟨hclen, hrows⟩ := hcl c (List.mem_cons_self c cl)
    obtain ⟨L, hb⟩ := batchStep_ok optStep bs d st c ds2 hclen hrows hds2 hbs hd0 hfix
      (by simp at hbound; omega)
    obtain ⟨st', hfold, hi', hlen', hfix'⟩ := ih
      ⟨(optStep st.model st.optState (mkBatch ds2 c)).1,
       (optStep st.model st.optState (mkBatch ds2 c)).2,
       st.mse_loss.set st.i L, st.i + 1⟩
      (fun c2 hc2 => hcl c2 (List.mem_cons_of_mem c hc2))
      (hstep _ _ _ hfix)
      (by simp [List.length_set]; simp at hbound; omega)
    refine ⟨st', ?_, ?_, ?_, hfix'⟩
    · rw [List.map_cons, List.foldlM_cons, hb, bind_ok]
      exact hfold
    · simp at hi' ⊢
      omega
    · simp [List.length_set] at hlen'
      exact hlen'

lemma fullLoss_ok (m : AE) (t : Tensor) (k d : Nat) (ds2 : List Nat)
    (hshape : t.shape = k :: ds2) (hd : ds2.prod = d)
    (hwf : t.data.length = k * d) (hk : 0 < k) (hd0 : 0 < d)
    (hfix : fixDim m d) : ∃ q, fullLoss m t = .ok q := by
  obtain ⟨hfwd, hdlen⟩ := forward_ok m t k d ds2 hshape hd hwf hk hd0 hfix
  have hhead : t.shape.headD 0 = k := by
    rw [hshape]
    rfl
  have hrv : (⟨t.shape, (m.decode (m.encode ⟨[k, d], t.data⟩)).data⟩ :
      Tensor).viewFlat k = some ⟨[k, d],
      (m.decode (m.encode ⟨[k, d], t.data⟩)).data⟩ :=
    viewFlat_of_len _ k d hk hd0 hdlen
  have htv : t.viewFlat k = some ⟨[k, d], t.data⟩ :=
    viewFlat_of_len t k d hk hd0 hwf
  refine ⟨mseLoss ⟨[k, d], (m.decode (m.encode ⟨[k, d], t.data⟩)).data⟩
    ⟨[k, d], t.data⟩, ?_⟩
  simp only [fullLoss, hfwd, orErr_some, bind_ok, hhead, hrv, htv]

lemma noGradEval_ok (m : AE) (dataset : Tensor) (val_dataset : Option Tensor)
    (epoch : Nat) (fm : List ℚ) (fv : Option (List ℚ))
    (n d : Nat) (ds2 : List Nat)
    (hshape : dataset.shape = n :: ds2) (hd : ds2.prod = d)
    (hwf : dataset.data.length = n * d) (hn : 0 < n) (hd0 : 0 < d)
    (hfix : fixDim m d) (hep : epoch < fm.length)
    (hval : ∀ v, val_dataset = some v →
      ∃ nv dsv, v.shape = nv :: dsv ∧ dsv.prod = d ∧ 0 < nv ∧ v.data.length = nv * d)
    (hfv : ∀ v, val_dataset = some v → ∃ vs, fv = some vs ∧ epoch < vs.length) :
    ∃ q fv', noGradEval m dataset val_dataset epoch fm fv
        = .ok (m, fm.set epoch q, fv') ∧
      fullLoss m dataset = .ok q ∧
      (val_dataset = none → fv' = none) ∧
      (∀ v, val_dataset = some v → ∃ qv vs, fv = some vs ∧
        fullLoss m v = .ok qv ∧ fv' = some (vs.set epoch qv)) := by
  obtain ⟨q, hq⟩ := fullLoss_ok m dataset n d ds2 hshape hd hwf hn hd0 hfix
  have hset : setIdx fm epoch q = .ok (fm.set epoch q) := by
    unfold setIdx
    rw [if_pos hep]
  cases val_dataset with
  | none =>
    refine ⟨q, none, ?_, hq, fun _ => rfl, fun v hv => Option.noConfusion hv⟩
    simp only [noGradEval, hq, bind_ok, hset]
  | some v =>
    obtain ⟨nv, dsv, hvshape, hvd, hnv, hvwf⟩ := hval v rfl
    obtain ⟨qv, hqv⟩ := fullLoss_ok m v nv d dsv hvshape hvd hvwf hnv hd0 hfix
    obtain ⟨vs, hvs, hepv⟩ := hfv v rfl
    have hsetv : setIdx (fv.getD []) epoch qv = .ok (vs.set epoch qv) := by
      rw [hvs, Option.getD_some]
      unfold setIdx
      rw [if_pos hepv]
    refine ⟨q, some (vs.set epoch qv), ?_, hq, (fun h => Option.noConfusion h), ?_⟩
    · simp only [noGradEval, hq, bind_ok, hset, hqv, hsetv]
    · intro v2 hv2
      have : v2 = v := Option.some.inj hv2.symm
      subst this
      exact ⟨qv, vs, hvs, hqv, rfl⟩

/-! ## The printed progress lines -/

/-- The epoch index and train/validation flag of one progress line. -/
def logKey (ev : OutEvent) : Nat × Bool := (ev.epoch, ev.isVal)

/-- The keys of the progress lines the loop prints during the first `e`
epochs: a training line at every epoch divisible by ten, followed by a
validation line when a validation set is present. -/
def logPattern (hasVal : Bool) (e : Nat) : List (Nat × Bool) :=
  ((List.range e).filter (fun k => k % 10 == 0)).flatMap
    (fun k => (k, false) :: (if hasVal then [(k, true)] else []))

lemma logPattern_succ (hasVal : Bool) (e : Nat) :
    logPattern hasVal (e + 1) = logPattern hasVal e ++
      (if e % 10 == 0 then
        (e, false) :: (if hasVal then [(e, true)] else []) else []) := by
  unfold logPattern
  rw [List.range_succ, List.filter_append, List.flatMap_append]
  congr 1
  by_cases h : e % 10 == 0 <;> simp [h]

lemma logPattern_mem (hasVal : Bool) (N k : Nat) (b : Bool) :
    (k, b) ∈ logPattern hasVal N ↔
      k < N ∧ k % 10 = 0 ∧ (b = true → hasVal = true) := by
  unfold logPattern
  rw [List.mem_flatMap]
  constructor
  · rintro ⟨j, hj, hmem⟩
    obtain ⟨hjr, hj10⟩ := List.mem_filter.1 hj
    have hjN := List.mem_range.1 hjr
    rcases List.mem_cons.1 hmem with h | h
    · obtain ⟨rfl, rfl⟩ := Prod.mk.injEq _ _ _ _ ▸ h
      exact ⟨hjN, by simpa using hj10, by simp⟩
    · cases hv : hasVal with
      | false => rw [hv] at h; simp at h
      | true =>
        rw [hv] at h
        simp at h
        obtain ⟨rfl, rfl⟩ := h
        exact ⟨hjN, by simpa using hj10, fun _ => rfl⟩
  · rintro ⟨hkN, hk10, hb⟩
    refine ⟨k, List.mem_filter.2 ⟨List.mem_range.2 hkN, by simpa using hk10⟩, ?_⟩
    cases b with
    | false => exact List.mem_cons_self _ _
    | true =>
      rw [hb rfl]
      simp

lemma getD_set_self (l : List ℚ) (i : Nat) (v : ℚ) (hi : i < l.length) :
    (l.set i v).getD i 0 = v := by
  rw [List.getD_eq_getElem?_getD, List.getElem?_set_self hi]
  rfl

lemma getD_set_ne (l : List ℚ) (i j : Nat) (v : ℚ) (hne : i ≠ j) :
    (l.set i v).getD j 0 = l.getD j 0 := by
  rw [List.getD_eq_getElem?_getD, List.getElem?_set_ne hne,
    ← List.getD_eq_getElem?_getD]

/-- The loop invariant of a successful training run, after `e` epochs:
shapes are preserved, the step index is `e` batches worth, the loss
arrays keep their allocated lengths, the printed lines follow the
every-tenth-epoch pattern, each filled entry is a whole-dataset loss of
some post-epoch model, and each printed value matches its entry. -/
def trainInv {Ω : Type} (dataset : Tensor) (val_dataset : Option Tensor)
    (epochs batch_size n d : Nat) (e : Nat) (a : EpochAcc Ω) : Prop :=
  fixDim a.st.model d ∧
  a.st.mse_loss.length = epochs * n / batch_size ∧
  a.st.i = e * (n / batch_size) ∧
  a.full_mse_loss.length = epochs ∧
  ((val_dataset = none ∧ a.full_val_loss = none) ∨
    (∃ v vs, val_dataset = some v ∧ a.full_val_loss = some vs ∧
      vs.length = epochs)) ∧
  a.log.map logKey = logPattern val_dataset.isSome e ∧
  (∃ mdl : Nat → AE, ∀ e2, e2 < e →
    fullLoss (mdl e2) dataset = .ok (a.full_mse_loss.getD e2 0) ∧
    (∀ v vs, val_dataset = some v → a.full_val_loss = some vs →
      fullLoss (mdl e2) v = .ok (vs.getD e2 0))) ∧
  (∀ ev ∈ a.log, ev.epoch < e ∧
    (ev.isVal = false → ev.value = a.full_mse_loss.getD ev.epoch 0) ∧
    (ev.isVal = true → ∀ vs, a.full_val_loss = some vs →
      ev.value = vs.getD ev.epoch 0))

/-- Constructive success of a whole training run under the library
contracts: the dataset is a nonempty `n × d` tensor with `batch_size`
dividing `n`, the shuffles are permutations, the optimiser step preserves
layer shapes, and the validation set (when given) has rows of the same
width.  The run succeeds, the per-epoch loss arrays have length `epochs`
(the validation one present exactly when a validation set is given), the
progress lines are exactly those of epochs divisible by ten, every
recorded per-epoch entry is the whole-dataset loss of the post-epoch
model, and every printed value is the recorded entry of its epoch. -/
lemma train_ok {Ω : Type} (optStep : AE → Ω → Tensor → AE × Ω) (ω0 : Ω)
    (shuffle : Nat → List (List ℚ) → List (List ℚ)) (dev : String)
    (autoencoder : AE) (dataset : Tensor) (device : String)
    (val_dataset : Option Tensor) (epochs batch_size : Nat)
    (n d : Nat) (ds2 : List Nat)
    (hshape : dataset.shape = n :: ds2) (hd : ds2.prod = d)
    (hwf : dataset.data.length = n * d) (hn : 0 < n) (hd0 : 0 < d)
    (hbs : 0 < batch_size) (hdvd : batch_size ∣ n)
    (hperm : ∀ e l, (shuffle e l).Perm l)
    (hfix0 : fixDim autoencoder d)
    (hstep : ∀ m ω b, fixDim m d → fixDim (optStep m ω b).1 d)
    (hval : ∀ v, val_dataset = some v →
      ∃ nv dsv, v.shape = nv :: dsv ∧ dsv.prod = d ∧ 0 < nv ∧ v.data.length = nv * d) :
    ∃ r, train_autoencoder optStep ω0 shuffle (some dev) autoencoder dataset device
        val_dataset epochs batch_size = .ok r ∧
      r.tr_mse.length = epochs ∧
      (val_dataset = none → r.val_mse = none) ∧
      (∀ v, val_dataset = some v → ∃ vs, r.val_mse = some vs ∧ vs.length = epochs) ∧
      r.log.map logKey = logPattern val_dataset.isSome epochs ∧
      r.placements = [dev, "cpu"] ∧
      (∃ mdl : Nat → AE, ∀ e, e < epochs →
        fullLoss (mdl e) dataset = .ok (r.tr_mse.getD e 0) ∧
        (∀ v vs, val_dataset = some v → r.val_mse = some vs →
          fullLoss (mdl e) v = .ok (vs.getD e 0))) ∧
      (∀ ev ∈ r.log, (ev.isVal = false → ev.value = r.tr_mse.getD ev.epoch 0) ∧
        (ev.isVal = true → ∀ vs, r.val_mse = some vs →
          ev.value = vs.getD ev.epoch 0)) := by
  have hhead : dataset.shape.headD 0 = n := by
    rw [hshape]
    rfl
  have htail : dataset.shape.tail = ds2 := by
    rw [hshape]
    rfl
  have hrows_eq : dataset.rows = rowsOf n d dataset.data := by
    rw [Tensor.rows, hshape]
    show rowsOf n ds2.prod _ = _
    rw [hd]
  have hrowsl : dataset.rows.length = n := by
    rw [hrows_eq, length_rowsOf]
  have hassoc : epochs * n / batch_size = epochs * (n / batch_size) :=
    Nat.mul_div_assoc epochs hdvd
  have hbase : trainInv dataset val_dataset epochs batch_size n d 0
      (initAcc autoencoder ω0 epochs batch_size dataset val_dataset) := by
    unfold trainInv
    refine ⟨hfix0, ?_, by simp [initAcc], by simp [initAcc], ?_, ?_,
      ⟨fun _ => autoencoder, fun e2 he2 => absurd he2 (by omega)⟩,
      fun ev hev => absurd hev (by simp [initAcc])⟩
    · show (List.replicate (epochs * (dataset.shape.headD 0) / batch_size)
        (0 : ℚ)).length = epochs * n / batch_size
      rw [List.length_replicate, hhead]
    · cases val_dataset with
      | none => exact Or.inl ⟨rfl, rfl⟩
      | some v => exact Or.inr ⟨v, List.replicate epochs 0, rfl, rfl, by simp⟩
    · show List.map logKey [] = logPattern val_dataset.isSome 0
      simp [logPattern]
  have hstepI : ∀ e a, e < epochs →
      trainInv dataset val_dataset epochs batch_size n d e a →
      ∃ a2, epochStep optStep batch_size
          (loaderBatches shuffle batch_size dataset) dataset val_dataset a e
          = .ok a2 ∧
        trainInv dataset val_dataset epochs batch_size n d (e + 1) a2 := by
    rintro e a he hInv
    obtain ⟨hfix, hbuf, hi, hfm, hvalI, hlog, ⟨mdl, hmdl⟩, hev⟩ := hInv
    -- the batches of this epoch
    have hpe := hperm e dataset.rows
    have hplen : (shuffle e dataset.rows).length = n := by
      rw [hpe.length_eq, hrowsl]
    have hcl_all : ∀ c ∈ chunksOf batch_size (shuffle e dataset.rows),
        c.length = batch_size ∧ ∀ r ∈ c, r.length = d := by
      intro c hc
      refine ⟨chunksOf_mem_length batch_size hbs _ (by rw [hplen]; exact hdvd) c hc, ?_⟩
      intro r hr
      have hr2 : r ∈ shuffle e dataset.rows :=
        chunksOf_mem_mem batch_size hbs _ hc hr
      have hr3 : r ∈ dataset.rows := hpe.mem_iff.1 hr2
      rw [hrows_eq] at hr3
      exact mem_rowsOf_length hwf hr3
    have hcll : (chunksOf batch_size (shuffle e dataset.rows)).length
        = n / batch_size := by
      rw [chunksOf_length_dvd batch_size hbs _ (by rw [hplen]; exact hdvd), hplen]
    have hload : loaderBatches shuffle batch_size dataset e
        = (chunksOf batch_size (shuffle e dataset.rows)).map (mkBatch ds2) := by
      rw [loaderBatches, htail]
    -- run the batch loop
    obtain ⟨st1, hfold, hi1, hlen1, hfix1⟩ :=
      foldBatches_ok optStep batch_size d ds2 hd hbs hd0 hstep
        (chunksOf batch_size (shuffle e dataset.rows)) a.st hcl_all hfix
        (by
          rw [hcll, hi, hbuf, hassoc]
          calc e * (n / batch_size) + n / batch_size
              = (e + 1) * (n / batch_size) := by ring
            _ ≤ epochs * (n / batch_size) :=
              Nat.mul_le_mul_right _ (by omega))
    -- run the no-grad evaluation block
    obtain ⟨q, fv2, hng, hq, hfvnone, hfvsome⟩ :=
      noGradEval_ok st1.model dataset val_dataset e a.full_mse_loss a.full_val_loss
        n d ds2 hshape hd hwf hn hd0 hfix1 (by omega)
        hval
        (by
          intro v hv
          rcases hvalI with ⟨h, -⟩ | ⟨v2, vs, hv2, hfv, hlen⟩
          · rw [hv] at h
            cases h
          · exact ⟨vs, hfv, by omega⟩)
    refine ⟨⟨⟨st1.model, st1.optState, st1.mse_loss, st1.i⟩,
      a.full_mse_loss.set e q, fv2,
      (if e % 10 == 0 then
        a.log ++ progressLines val_dataset e (a.full_mse_loss.set e q) fv2
      else a.log)⟩, ?_, ?_⟩
    · -- the epoch runs to exactly this state
      simp only [epochStep, hload, hfold, bind_ok, hng]
    · -- the invariant at e + 1
      have hsetlen : (a.full_mse_loss.set e q).length = epochs := by
        rw [List.length_set, hfm]
      have hvd2 : ((val_dataset = none ∧ fv2 = none) ∨
          (∃ v vs, val_dataset = some v ∧ fv2 = some vs ∧ vs.length = epochs)) := by
        cases hvc : val_dataset with
        | none => exact Or.inl ⟨rfl, hfvnone hvc⟩
        | some v =>
          obtain ⟨qv, vs, hvs, hqv, hfveq⟩ := hfvsome v hvc
          rcases hvalI with ⟨h, -⟩ | ⟨v2, vs2, hv2, hfv2, hlen2⟩
          · rw [hvc] at h
            cases h
          · have : vs2 = vs := by
              rw [hfv2] at hvs
              exact Option.some.inj hvs
            subst this
            exact Or.inr ⟨v, vs2.set e qv, rfl, hfveq, by rw [List.length_set]; omega⟩
      unfold trainInv
      refine ⟨hfix1, by rw [hlen1, hbuf], by rw [hi1, hi, hcll]; ring,
        hsetlen, hvd2, ?_, ?_, ?_⟩
      · -- the log pattern extends
        show List.map logKey (if (e % 10 == 0) = true then
            a.log ++ progressLines val_dataset e (a.full_mse_loss.set e q) fv2
          else a.log) = logPattern val_dataset.isSome (e + 1)
        rw [logPattern_succ]
        by_cases h10 : (e % 10 == 0) = true
        · simp only [if_pos h10, List.map_append, hlog]
          congr 1
          cases hvc : val_dataset with
          | none => simp [progressLines, logKey]
          | some v => simp [progressLines, logKey]
        · simp only [if_neg h10, List.append_nil]
          exact hlog
      · -- every recorded entry is a whole-dataset loss of a post-epoch model
        refine ⟨fun k => if k = e then st1.model else mdl k, ?_⟩
        intro e2 he2
        by_cases hee : e2 = e
        · subst hee
          simp only [eq_self_iff_true, if_true]
          constructor
          · rw [getD_set_self _ _ _ (by omega)]
            exact hq
          · intro v vs hv hvs
            obtain ⟨qv, vs2, hvs2, hqv, hfveq⟩ := hfvsome v hv
            rw [hfveq] at hvs
            have : vs = vs2.set e2 qv := Option.some.inj hvs.symm
            subst this
            rcases hvalI with ⟨h, -⟩ | ⟨v3, vs3, hv3, hfv3, hlen3⟩
            · rw [hv] at h
              cases h
            · have : vs3 = vs2 := by
                rw [hfv3] at hvs2
                exact Option.some.inj hvs2
              subst this
              rw [getD_set_self _ _ _ (by omega)]
              exact hqv
        · have he2lt : e2 < e := by omega
          simp only [if_neg hee]
          obtain ⟨hm1, hm2⟩ := hmdl e2 he2lt
          constructor
          · rw [getD_set_ne _ _ _ _ (fun h => hee h.symm)]
            exact hm1
          · intro v vs hv hvs
            obtain ⟨qv, vs2, hvs2, hqv, hfveq⟩ := hfvsome v hv
            rw [hfveq] at hvs
            have : vs = vs2.set e qv := Option.some.inj hvs.symm
            subst this
            rw [getD_set_ne _ _ _ _ (fun h => hee h.symm)]
            exact hm2 v vs2 hv hvs2
      · -- every printed value is the recorded entry of its epoch
        have holdev : ∀ ev, ev ∈ a.log →
            ev.epoch < e + 1 ∧
            (ev.isVal = false →
              ev.value = (a.full_mse_loss.set e q).getD ev.epoch 0) ∧
            (ev.isVal = true → ∀ vs, fv2 = some vs →
              ev.value = vs.getD ev.epoch 0) := by
          intro ev hold
          obtain ⟨hlt, hf, ht⟩ := hev ev hold
          refine ⟨by omega, ?_, ?_⟩
          · intro hisf
            rw [getD_set_ne _ _ _ _ (by omega)]
            exact hf hisf
          · intro hist vs hvs
            cases hvc : val_dataset with
            | none =>
              rw [hfvnone hvc] at hvs
              cases hvs
            | some v =>
              obtain ⟨qv, vs2, hvs2, hqv, hfveq⟩ := hfvsome v hvc
              rw [hfveq] at hvs
              have hvv : vs = vs2.set e qv := Option.some.inj hvs.symm
              subst hvv
              rw [getD_set_ne _ _ _ _ (by omega)]
              exact ht hist vs2 hvs2
        intro ev hevm
        by_cases h10 : (e % 10 == 0) = true
        · rw [if_pos h10] at hevm
          rcases List.mem_append.1 hevm with hold | hnew
          · exact holdev ev hold
          · rcases List.mem_append.1 hnew with htr | hvl
            · have hevEq : ev = ⟨e, (a.full_mse_loss.set e q).getD e 0, false⟩ :=
                List.mem_singleton.1 htr
              subst hevEq
              exact ⟨Nat.lt_succ_self e, fun _ => rfl, fun hist => Bool.noConfusion hist⟩
            · cases hvc : val_dataset with
              | none =>
                rw [hvc] at hvl
                simp at hvl
              | some v =>
                rw [hvc] at hvl
                have hevEq : ev = ⟨e, (fv2.getD []).getD e 0, true⟩ := by
                  simpa using hvl
                subst hevEq
                refine ⟨Nat.lt_succ_self e, fun hisf => Bool.noConfusion hisf,
                  fun _ vs hvs => ?_⟩
                have hvs2 : fv2 = some vs := hvs
                show (fv2.getD []).getD e 0 = vs.getD e 0
                rw [hvs2, Option.getD_some]
        · rw [if_neg h10] at hevm
          exact holdev ev hevm
  obtain ⟨accN, hfoldN, hPN⟩ := foldlM_range_exists
    (epochStep optStep batch_size (loaderBatches shuffle batch_size dataset)
      dataset val_dataset)
    (trainInv dataset val_dataset epochs batch_size n d)
    epochs
    (initAcc autoencoder ω0 epochs batch_size dataset val_dataset)
    hbase hstepI
  obtain ⟨hfixN, hbufN, hiN, hfmN, hvalN, hlogN, ⟨mdl, hmdl⟩, hevN⟩ := hPN
  refine ⟨⟨accN.full_mse_loss, accN.full_val_loss, accN.log, [dev, "cpu"],
    accN.st.mse_loss⟩, ?_, hfmN, ?_, ?_, hlogN, rfl,
    ⟨mdl, fun e he => hmdl e he⟩,
    fun ev hev => ⟨(hevN ev hev).2.1, (hevN ev hev).2.2⟩⟩
  · rw [train_unfold, hfoldN, bind_ok]
  · intro hnone
    rcases hvalN with ⟨-, h⟩ | ⟨v, vs, hv, -, -⟩
    · exact h
    · rw [hnone] at hv
      cases hv
  · intro v hv
    rcases hvalN with ⟨h, -⟩ | ⟨v2, vs, hv2, hfv, hlen⟩
    · rw [hv] at h
      cases h
    · exact ⟨vs, hfv, hlen⟩

/-- C3: after each of the `epochs` epochs the driver computes the
mean-squared-error loss over the whole training dataset (and over the
whole validation dataset when one is given, with the same post-epoch
parameters) and returns these per-epoch histories: a training-loss
array of length `epochs`, paired with a validation-loss array of length
`epochs` when `val_dataset` is provided and with `None` otherwise. -/
theorem C3_per_epoch_loss_histories {Ω : Type} (optStep : AE → Ω → Tensor → AE × Ω)
    (ω0 : Ω) (shuffle : Nat → List (List ℚ) → List (List ℚ)) (dev : String)
    (autoencoder : AE) (dataset : Tensor) (device : String)
    (val_dataset : Option Tensor) (epochs batch_size : Nat)
    (n d : Nat) (ds2 : List Nat)
    (hshape : dataset.shape = n :: ds2) (hd : ds2.prod = d)
    (hwf : dataset.data.length = n * d) (hn : 0 < n) (hd0 : 0 < d)
    (hbs : 0 < batch_size) (hdvd : batch_size ∣ n)
    (hperm : ∀ e l, (shuffle e l).Perm l)
    (hfix0 : fixDim autoencoder d)
    (hstep : ∀ m ω b, fixDim m d → fixDim (optStep m ω b).1 d)
    (hval : ∀ v, val_dataset = some v →
      ∃ nv dsv, v.shape = nv :: dsv ∧ dsv.prod = d ∧ 0 < nv ∧ v.data.length = nv * d) :
    ∃ r, train_autoencoder optStep ω0 shuffle (some dev) autoencoder dataset device
        val_dataset epochs batch_size = .ok r ∧
      r.tr_mse.length = epochs ∧
      (val_dataset = none → r.val_mse = none) ∧
      (∀ v, val_dataset = some v → ∃ vs, r.val_mse = some vs ∧ vs.length = epochs) ∧
      (∃ mdl : Nat → AE, ∀ e, e < epochs →
        fullLoss (mdl e) dataset = .ok (r.tr_mse.getD e 0) ∧
        (∀ v vs, val_dataset = some v → r.val_mse = some vs →
          fullLoss (mdl e) v = .ok (vs.getD e 0))) := by
  obtain ⟨r, h1, h2, h3, h4, -, -, h7, -⟩ :=
    train_ok optStep ω0 shuffle dev autoencoder dataset device val_dataset
      epochs batch_size n d ds2 hshape hd hwf hn hd0 hbs hdvd hperm hfix0 hstep hval
  exact ⟨r, h1, h2, h3, h4, h7⟩

/-- Witness for C3: a one-example, one-epoch run of the tiny model with
no validation set. -/
theorem C3_per_epoch_loss_histories_witness :
    ∃ r, train_autoencoder (Ω := Unit) (fun m s _ => (m, s)) () (fun _ l => l)
        (some "cpu") tinyAE tinyDS "x" none 1 1 = .ok r ∧
      r.tr_mse.length = 1 ∧
      ((none : Option Tensor) = none → r.val_mse = none) ∧
      (∀ v, (none : Option Tensor) = some v →
        ∃ vs, r.val_mse = some vs ∧ vs.length = 1) ∧
      (∃ mdl : Nat → AE, ∀ e, e < 1 →
        fullLoss (mdl e) tinyDS = .ok (r.tr_mse.getD e 0) ∧
        (∀ v vs, (none : Option Tensor) = some v → r.val_mse = some vs →
          fullLoss (mdl e) v = .ok (vs.getD e 0))) :=
  C3_per_epoch_loss_histories (Ω := Unit) (fun m s _ => (m, s)) () (fun _ l => l)
    "cpu" tinyAE tinyDS "x" none 1 1 1 1 [1] rfl rfl (by decide) (by decide)
    (by decide) (by decide) (by decide) (fun _ l => List.Perm.refl l)
    rfl (fun m ω b h => h) (fun v hv => by cases hv)

/-- C9: the driver prints a progress line carrying the recorded
whole-dataset training loss (and a validation-loss line when a
validation set is given) exactly at the epochs whose index is divisible
by ten — including epoch 0 — and at no other epoch. -/
theorem C9_progress_print_epochs {Ω : Type} (optStep : AE → Ω → Tensor → AE × Ω)
    (ω0 : Ω) (shuffle : Nat → List (List ℚ) → List (List ℚ)) (dev : String)
    (autoencoder : AE) (dataset : Tensor) (device : String)
    (val_dataset : Option Tensor) (epochs batch_size : Nat)
    (n d : Nat) (ds2 : List Nat)
    (hshape : dataset.shape = n :: ds2) (hd : ds2.prod = d)
    (hwf : dataset.data.length = n * d) (hn : 0 < n) (hd0 : 0 < d)
    (hbs : 0 < batch_size) (hdvd : batch_size ∣ n)
    (hperm : ∀ e l, (shuffle e l).Perm l)
    (hfix0 : fixDim autoencoder d)
    (hstep : ∀ m ω b, fixDim m d → fixDim (optStep m ω b).1 d)
    (hval : ∀ v, val_dataset = some v →
      ∃ nv dsv, v.shape = nv :: dsv ∧ dsv.prod = d ∧ 0 < nv ∧ v.data.length = nv * d) :
    ∃ r, train_autoencoder optStep ω0 shuffle (some dev) autoencoder dataset device
        val_dataset epochs batch_size = .ok r ∧
      (∀ k b, (k, b) ∈ r.log.map logKey ↔
        (k < epochs ∧ k % 10 = 0 ∧ (b = true → val_dataset.isSome = true))) ∧
      (0 < epochs → (0, false) ∈ r.log.map logKey) ∧
      (∀ ev ∈ r.log, (ev.isVal = false → ev.value = r.tr_mse.getD ev.epoch 0) ∧
        (ev.isVal = true → ∀ vs, r.val_mse = some vs →
          ev.value = vs.getD ev.epoch 0)) := by
  obtain ⟨r, h1, -, -, -, h5, -, -, h8⟩ :=
    train_ok optStep ω0 shuffle dev autoencoder dataset device val_dataset
      epochs batch_size n d ds2 hshape hd hwf hn hd0 hbs hdvd hperm hfix0 hstep hval
  refine ⟨r, h1, ?_, ?_, h8⟩
  · intro k b
    rw [h5]
    exact logPattern_mem _ epochs k b
  · intro hep
    rw [h5]
    exact (logPattern_mem _ epochs 0 false).2
      ⟨hep, rfl, fun h => Bool.noConfusion h⟩

/-- Witness for C9: the tiny one-epoch run prints exactly the epoch-0
training-loss line. -/
theorem C9_progress_print_epochs_witness :
    ∃ r, train_autoencoder (Ω := Unit) (fun m s _ => (m, s)) () (fun _ l => l)
        (some "cpu") tinyAE tinyDS "x" none 1 1 = .ok r ∧
      (∀ k b, (k, b) ∈ r.log.map logKey ↔
        (k < 1 ∧ k % 10 = 0 ∧ (b = true → (none : Option Tensor).isSome = true))) ∧
      (0 < 1 → (0, false) ∈ r.log.map logKey) ∧
      (∀ ev ∈ r.log, (ev.isVal = false → ev.value = r.tr_mse.getD ev.epoch 0) ∧
        (ev.isVal = true → ∀ vs, r.val_mse = some vs →
          ev.value = vs.getD ev.epoch 0)) :=
  C9_progress_print_epochs (Ω := Unit) (fun m s _ => (m, s)) () (fun _ l => l)
    "cpu" tinyAE tinyDS "x" none 1 1 1 1 [1] rfl rfl (by decide) (by decide)
    (by decide) (by decide) (by decide) (fun _ l => List.Perm.refl l)
    rfl (fun m ω b h => h) (fun v hv => by cases hv)

/-! ## The command line entry point (`if __name__ == '__main__':`) -/

/-- The synthetic dataset of the entry point: for every drawn integer
`a`, the row `[a - 1, a, a + 1]`
(`x = np.tile(x_a.reshape(-1,1), [1, 3]) + np.tile(np.arange(-1,2), ...)`,
then `torch.tensor(x).float()`).  The list `x_a` abstracts the ten
thousand draws of `np.random.choice(10000, size=10000)` under the fixed
seed. -/
def mainRow (a : Nat) : List ℚ := [(a : ℚ) - 1, (a : ℚ), (a : ℚ) + 1]

def mainDataset (x_a : List Nat) : Tensor :=
  ⟨[x_a.length, 3], (x_a.map mainRow).flatten⟩

/-- `t[:k]`: the first `k` rows of a tensor. -/
def takeRows (t : Tensor) (k : Nat) : Tensor :=
  ⟨k :: t.shape.tail, t.data.take (k * t.shape.tail.prod)⟩

/-- `t[k:]`: all but the first `k` rows of a tensor. -/
def dropRows (t : Tensor) (k : Nat) : Tensor :=
  ⟨(t.shape.headD 0 - k) :: t.shape.tail, t.data.drop (k * t.shape.tail.prod)⟩

/-- `x_tr = x[:-x.size(0)//5]`: the first `n - n / 5` examples. -/
def x_tr (x_a : List Nat) : Tensor :=
  takeRows (mainDataset x_a)
    ((mainDataset x_a).shape.headD 0 - (mainDataset x_a).shape.headD 0 / 5)

/-- `x_val = x[-x.size(0)//5:]`: the last `n / 5` examples.  Built by the
entry point but never passed to the training call. -/
def x_val (x_a : List Nat) : Tensor :=
  dropRows (mainDataset x_a)
    ((mainDataset x_a).shape.headD 0 - (mainDataset x_a).shape.headD 0 / 5)

/-- The entry point: seed the RNGs, set the global `DEVICE`, build the
synthetic dataset, split it into `x_tr` and `x_val`, build
`vae = AE(x.size(-1), 1, [5], [5])` and call
`train_autoencoder(vae, x_tr, DEVICE, epochs=20, batch_size=250, seed=0)`
— `x_val` is not passed, so `val_dataset` defaults to `None`.  Returns
the two printed payloads of
`print(f'Final Training Loss: {loss}')` and
`print(f'Final Validation Loss: {val_loss}')`: the whole training-loss
history and the validation result. -/
def mainRun {Ω : Type} (mk : Nat → Nat → Linear) (optStep : AE → Ω → Tensor → AE × Ω)
    (ω0 : Ω) (shuffle : Nat → List (List ℚ) → List (List ℚ))
    (x_a : List Nat) (devStr : String) : Except Err (List ℚ × Option (List ℚ)) := do
  let vae ← orErr (AE.make mk ((mainDataset x_a).shape.getLastD 0) 1 [5] [5])
    Err.indexError
  let res ← train_autoencoder optStep ω0 shuffle (some devStr) vae (x_tr x_a)
    devStr none 20 250
  .ok (res.tr_mse, res.val_mse)

lemma rowsOf_flatten (rows : List (List ℚ)) (d : Nat)
    (hrows : ∀ r ∈ rows, r.length = d) :
    rowsOf rows.length d rows.flatten = rows := by
  induction rows with
  | nil => rfl
  | cons r rest ih =>
    have hr : r.length = d := hrows r (List.mem_cons_self r rest)
    unfold rowsOf
    rw [List.length_cons, List.range_succ_eq_map, List.map_cons, List.flatten_cons]
    congr 1
    · show ((r ++ rest.flatten).drop (0 * d)).take d = r
      rw [Nat.zero_mul, List.drop_zero, ← hr, List.take_left]
    · rw [List.map_map]
      have hcg : ∀ i ∈ List.range rest.length,
          ((fun i => ((r ++ rest.flatten).drop (i * d)).take d) ∘ Nat.succ) i
          = (fun i => ((rest.flatten).drop (i * d)).take d) i := by
        intro i _
        show ((r ++ rest.flatten).drop ((i + 1) * d)).take d = _
        have harith : (i + 1) * d = r.length + i * d := by
          rw [hr]
          ring
        rw [harith, ← List.drop_drop, List.drop_left]
      rw [List.map_congr_left hcg]
      have ihh := ih (fun r2 h2 => hrows r2 (List.mem_cons_of_mem r h2))
      unfold rowsOf at ihh
      exact ihh

lemma rowsOf_take (n d k : Nat) (data : List ℚ) (hk : k ≤ n) :
    rowsOf k d (data.take (k * d)) = (rowsOf n d data).take k := by
  unfold rowsOf
  rw [← List.map_take, List.take_range, Nat.min_eq_left hk]
  apply List.map_congr_left
  intro i hi
  have hiK := List.mem_range.1 hi
  rw [List.drop_take, List.take_take]
  congr 1
  apply Nat.min_eq_left
  have h1 : i * d + d ≤ k * d := by
    calc i * d + d = (i + 1) * d := by ring
      _ ≤ k * d := Nat.mul_le_mul_right d hiK
  exact Nat.le_sub_of_add_le (by rw [Nat.add_comm]; exact h1)

lemma rowsOf_drop (n d k : Nat) (data : List ℚ) (hk : k ≤ n) :
    rowsOf (n - k) d (data.drop (k * d)) = (rowsOf n d data).drop k := by
  unfold rowsOf
  rw [← List.map_drop]
  have hrange : (List.range n).drop k = (List.range (n - k)).map (fun x => k + x) := by
    calc (List.range n).drop k
        = (List.range (k + (n - k))).drop k := by rw [Nat.add_sub_cancel' hk]
      _ = ((List.range k) ++ (List.range (n - k)).map (fun x => k + x)).drop k := by
          rw [List.range_add]
      _ = (List.range (n - k)).map (fun x => k + x) := by
          simpa using
            List.drop_left (List.range k) ((List.range (n - k)).map (fun x => k + x))
  rw [hrange, List.map_map]
  apply List.map_congr_left
  intro i _
  show ((data.drop (k * d)).drop (i * d)).take d = (data.drop ((k + i) * d)).take d
  rw [List.drop_drop]
  congr 2
  ring

lemma mainDataset_data_length (x_a : List Nat) :
    (mainDataset x_a).data.length = x_a.length * 3 := by
  show ((x_a.map mainRow).flatten).length = _
  rw [List.length_flatten, List.map_map]
  exact sum_map_const x_a _ 3 (fun a _ => rfl)

lemma mainDataset_rows (x_a : List Nat) :
    (mainDataset x_a).rows = x_a.map mainRow := by
  show rowsOf x_a.length 3 ((x_a.map mainRow).flatten) = _
  have h3 : x_a.length = (x_a.map mainRow).length := by
    rw [List.length_map]
  rw [h3]
  exact rowsOf_flatten _ 3 (fun r hr => by
    obtain ⟨a, -, rfl⟩ := List.mem_map.1 hr
    rfl)

lemma x_tr_eq (x_a : List Nat) (hlen : x_a.length = 10000) :
    x_tr x_a = takeRows (mainDataset x_a) 8000 := by
  unfold x_tr
  have h : (mainDataset x_a).shape.headD 0 = 10000 := by
    show x_a.length = 10000
    exact hlen
  rw [h]

lemma x_val_eq (x_a : List Nat) (hlen : x_a.length = 10000) :
    x_val x_a = dropRows (mainDataset x_a) 8000 := by
  unfold x_val
  have h : (mainDataset x_a).shape.headD 0 = 10000 := by
    show x_a.length = 10000
    exact hlen
  rw [h]

lemma x_tr_shape (x_a : List Nat) (hlen : x_a.length = 10000) :
    (x_tr x_a).shape = [8000, 3] := by
  rw [x_tr_eq x_a hlen]
  rfl

lemma x_val_shape (x_a : List Nat) (hlen : x_a.length = 10000) :
    (x_val x_a).shape = [2000, 3] := by
  rw [x_val_eq x_a hlen]
  show ((mainDataset x_a).shape.headD 0 - 8000) :: (mainDataset x_a).shape.tail
      = [2000, 3]
  have h : (mainDataset x_a).shape.headD 0 = 10000 := by
    show x_a.length = 10000
    exact hlen
  rw [h]
  rfl

lemma takeRows_rows (t : Tensor) (k : Nat) (hk : k ≤ t.shape.headD 0) :
    (takeRows t k).rows = t.rows.take k := by
  unfold Tensor.rows takeRows
  simp only [List.headD_cons, List.tail_cons]
  exact rowsOf_take (t.shape.headD 0) t.shape.tail.prod k t.data hk

lemma dropRows_rows (t : Tensor) (k : Nat) (hk : k ≤ t.shape.headD 0) :
    (dropRows t k).rows = t.rows.drop k := by
  unfold Tensor.rows dropRows
  simp only [List.headD_cons, List.tail_cons]
  exact rowsOf_drop (t.shape.headD 0) t.shape.tail.prod k t.data hk

lemma x_tr_rows (x_a : List Nat) (hlen : x_a.length = 10000) :
    (x_tr x_a).rows = (mainDataset x_a).rows.take 8000 := by
  rw [x_tr_eq x_a hlen]
  refine takeRows_rows (mainDataset x_a) 8000 ?_
  show (8000 : Nat) ≤ x_a.length
  omega

lemma x_val_rows (x_a : List Nat) (hlen : x_a.length = 10000) :
    (x_val x_a).rows = (mainDataset x_a).rows.drop 8000 := by
  rw [x_val_eq x_a hlen]
  refine dropRows_rows (mainDataset x_a) 8000 ?_
  show (8000 : Nat) ≤ x_a.length
  omega

lemma x_tr_data_length (x_a : List Nat) (hlen : x_a.length = 10000) :
    (x_tr x_a).data.length = 8000 * 3 := by
  rw [x_tr_eq x_a hlen]
  show ((mainDataset x_a).data.take (8000 * [3].prod)).length = 8000 * 3
  rw [List.length_take, mainDataset_data_length, hlen]
  rfl

/-- A successful entry-point run, under the library contracts: the call
returns the whole 20-entry training-loss history paired with `none` for
the validation loss, and every entry of the history is the whole-dataset
loss of a post-epoch model over `x_tr` (the first 8000 examples). -/
lemma mainRun_ok {Ω : Type} (mk : Nat → Nat → Linear)
    (optStep : AE → Ω → Tensor → AE × Ω) (ω0 : Ω)
    (shuffle : Nat → List (List ℚ) → List (List ℚ))
    (x_a : List Nat) (devStr : String)
    (hlen : x_a.length = 10000) (hmk : wfMk mk)
    (hperm : ∀ e l, (shuffle e l).Perm l)
    (hstep : ∀ m ω b, fixDim m 3 → fixDim (optStep m ω b).1 3) :
    ∃ tr, mainRun mk optStep ω0 shuffle x_a devStr = .ok (tr, none) ∧
      tr.length = 20 ∧
      (∃ mdl : Nat → AE, ∀ e, e < 20 →
        fullLoss (mdl e) (x_tr x_a) = .ok (tr.getD e 0)) := by
  have hgetlast : (mainDataset x_a).shape.getLastD 0 = 3 := rfl
  have hvae : AE.make mk ((mainDataset x_a).shape.getLastD 0) 1 [5] [5]
      = some ⟨3, 1, specMLP mk 3 [5] 1, specMLP mk 1 [5] 3⟩ := by
    rw [hgetlast]
    exact make_eq mk 3 1 (List.cons_ne_nil 5 []) (List.cons_ne_nil 5 [])
  have hfix : fixDim (⟨3, 1, specMLP mk 3 [5] 1, specMLP mk 1 [5] 3⟩ : AE) 3 := by
    show stackOutLen (specMLP mk 1 [5] 3) _ = 3
    exact stackOutLen_specMLP mk hmk [5] 1 3 _
  obtain ⟨r, htrain, hlen20, hvnone, -, -, -, ⟨mdl, hmdl⟩, -⟩ :=
    train_ok optStep ω0 shuffle devStr
      ⟨3, 1, specMLP mk 3 [5] 1, specMLP mk 1 [5] 3⟩ (x_tr x_a) devStr none 20 250
      8000 3 [3] (x_tr_shape x_a hlen) rfl (x_tr_data_length x_a hlen)
      (by omega) (by omega) (by omega) (by decide) hperm hfix hstep
      (fun v hv => by cases hv)
  refine ⟨r.tr_mse, ?_, hlen20, ⟨mdl, fun e he => (hmdl e he).1⟩⟩
  simp only [mainRun, hvae, orErr_some, bind_ok, htrain, hvnone rfl]

/-- C10: the entry point splits the synthetic dataset into a training
part (the first 8000 examples) and a validation part (the last 2000
examples), but its call to `train_autoencoder` does not pass the
validation part, so the returned and printed final validation loss is
`None` even though the validation split exists. -/
theorem C10_val_split_never_passed {Ω : Type} (mk : Nat → Nat → Linear)
    (optStep : AE → Ω → Tensor → AE × Ω) (ω0 : Ω)
    (shuffle : Nat → List (List ℚ) → List (List ℚ))
    (x_a : List Nat) (devStr : String)
    (hlen : x_a.length = 10000) (hmk : wfMk mk)
    (hperm : ∀ e l, (shuffle e l).Perm l)
    (hstep : ∀ m ω b, fixDim m 3 → fixDim (optStep m ω b).1 3) :
    (x_tr x_a).shape = [8000, 3] ∧
    (x_val x_a).shape = [2000, 3] ∧
    (x_tr x_a).rows = (mainDataset x_a).rows.take 8000 ∧
    (x_val x_a).rows = (mainDataset x_a).rows.drop 8000 ∧
    (∃ tr, mainRun mk optStep ω0 shuffle x_a devStr = .ok (tr, none)) := by
  obtain ⟨tr, hrun, -, -⟩ := mainRun_ok mk optStep ω0 shuffle x_a devStr hlen hmk
    hperm hstep
  exact ⟨x_tr_shape x_a hlen, x_val_shape x_a hlen, x_tr_rows x_a hlen,
    x_val_rows x_a hlen, tr, hrun⟩

/-- Witness for C10: a concrete entry-point run with all draws equal to
zero, identity shuffling and an identity optimiser step. -/
theorem C10_val_split_never_passed_witness :
    (x_tr (List.replicate 10000 0)).shape = [8000, 3] ∧
    (x_val (List.replicate 10000 0)).shape = [2000, 3] ∧
    (x_tr (List.replicate 10000 0)).rows
      = (mainDataset (List.replicate 10000 0)).rows.take 8000 ∧
    (x_val (List.replicate 10000 0)).rows
      = (mainDataset (List.replicate 10000 0)).rows.drop 8000 ∧
    (∃ tr, mainRun (Ω := Unit) zeroMk (fun m s _ => (m, s)) () (fun _ l => l)
        (List.replicate 10000 0) "cpu" = .ok (tr, none)) :=
  C10_val_split_never_passed (Ω := Unit) zeroMk (fun m s _ => (m, s)) ()
    (fun _ l => l) (List.replicate 10000 0) "cpu" (by rw [List.length_replicate]) wfMk_zeroMk
    (fun _ l => List.Perm.refl l) (fun m ω b h => h)

/-- Counterexample for C8 as stated: at a concrete run, the entry point
prints the entire 20-entry training-loss history — not a single final
training-loss value — and prints `None` rather than a validation-loss
value. -/
theorem C8_entry_point_counterexample :
    ∃ tr, mainRun (Ω := Unit) zeroMk (fun m s _ => (m, s)) () (fun _ l => l)
        (List.replicate 10000 0) "cpu" = .ok (tr, none) ∧
      tr.length = 20 ∧ ¬ tr.length = 1 := by
  obtain ⟨tr, h1, h2, -⟩ := mainRun_ok (Ω := Unit) zeroMk (fun m s _ => (m, s)) ()
    (fun _ l => l) (List.replicate 10000 0) "cpu" (by rw [List.length_replicate]) wfMk_zeroMk
    (fun _ l => List.Perm.refl l) (fun m ω b h => h)
  exact ⟨tr, h1, h2, by omega⟩

/-- C8 (amended): the entry point takes no arguments, generates the
fixed synthetic dataset of 10000 examples `[a-1, a, a+1]` with `a` drawn
from `0..9999` under the fixed seed, trains the autoencoder on the
first 8000 examples, and prints the entire per-epoch training-loss
history together with `None` for the validation loss. -/
theorem C8_entry_point_behaviour {Ω : Type} (mk : Nat → Nat → Linear)
    (optStep : AE → Ω → Tensor → AE × Ω) (ω0 : Ω)
    (shuffle : Nat → List (List ℚ) → List (List ℚ))
    (x_a : List Nat) (devStr : String)
    (hlen : x_a.length = 10000)
    (hrange : ∀ a ∈ x_a, a < 10000)
    (hmk : wfMk mk)
    (hperm : ∀ e l, (shuffle e l).Perm l)
    (hstep : ∀ m ω b, fixDim m 3 → fixDim (optStep m ω b).1 3) :
    (mainDataset x_a).shape = [10000, 3] ∧
    (mainDataset x_a).rows = x_a.map mainRow ∧
    (x_tr x_a).shape = [8000, 3] ∧
    (∃ tr, mainRun mk optStep ω0 shuffle x_a devStr = .ok (tr, none) ∧
      tr.length = 20 ∧
      (∃ mdl : Nat → AE, ∀ e, e < 20 →
        fullLoss (mdl e) (x_tr x_a) = .ok (tr.getD e 0))) := by
  obtain ⟨tr, h1, h2, h3⟩ := mainRun_ok mk optStep ω0 shuffle x_a devStr hlen hmk
    hperm hstep
  refine ⟨?_, mainDataset_rows x_a, x_tr_shape x_a hlen, tr, h1, h2, h3⟩
  show [x_a.length, 3] = [10000, 3]
  rw [hlen]

/-- Witness for the amended C8 at the concrete all-zero draw. -/
theorem C8_entry_point_behaviour_witness :
    (mainDataset (List.replicate 10000 0)).shape = [10000, 3] ∧
    (mainDataset (List.replicate 10000 0)).rows
      = (List.replicate 10000 0).map mainRow ∧
    (x_tr (List.replicate 10000 0)).shape = [8000, 3] ∧
    (∃ tr, mainRun (Ω := Unit) zeroMk (fun m s _ => (m, s)) () (fun _ l => l)
        (List.replicate 10000 0) "cpu" = .ok (tr, none) ∧
      tr.length = 20 ∧
      (∃ mdl : Nat → AE, ∀ e, e < 20 →
        fullLoss (mdl e) (x_tr (List.replicate 10000 0)) = .ok (tr.getD e 0))) :=
  C8_entry_point_behaviour (Ω := Unit) zeroMk (fun m s _ => (m, s)) ()
    (fun _ l => l) (List.replicate 10000 0) "cpu" (by rw [List.length_replicate])
    (fun a ha => by
      rw [List.eq_of_mem_replicate ha]
      omega)
    wfMk_zeroMk (fun _ l => List.Perm.refl l) (fun m ω b h => h)

end AEnc
